import Mathlib

/-!
Shallow embedding of the navigation-planning core of the repository:

* `graph_compiler.py` — data model (`GraphNode`, `GraphEdge`, `AppGraph`),
  `get_neighbors`/`get_edge`, the grid layout (`_layout_nodes`, `_bfs_order`),
  edge tracing (`_trace_edges`, `_trace_l_path`), `compile`, `decode_hrm_path`.
* `planner.py` — `INTENT_CHECKPOINTS`, `Planner._resolve_checkpoints`,
  `Planner._bfs_graph_path`, `Planner._build_action_step`,
  `Planner._build_param_steps`, `Planner._needs_confirmation`, `Planner.plan`.
* `bank_service.py` — `BankService._handle_action_result` as a pure transition
  on the service state.
* `hrm_service.py` — `HRMModel._bfs_solve`.

Python dictionaries are modelled by association lists that keep insertion
order (lookup returns the first, and by construction only, binding).
Python `while` loops are modelled by fuel-based recursion with a fuel that
strictly dominates the number of iterations of the source loop.
-/

namespace IU

/-! ### Association lists (insertion-ordered dictionaries) -/

/-- First binding of a key in an association list (Python `dict` lookup /
`dict.get`). -/
def afind {κ α : Type} [DecidableEq κ] : List (κ × α) → κ → Option α
  | [], _ => none
  | (k, v) :: rest, key => if k = key then some v else afind rest key

/-- Python `d[k] = v`: replace the value in place when the key is present
(dictionaries keep the original insertion position), append otherwise. -/
def aset {κ α : Type} [DecidableEq κ] : List (κ × α) → κ → α → List (κ × α)
  | [], k, v => [(k, v)]
  | (k', v') :: rest, k, v =>
      if k' = k then (k, v) :: rest else (k', v') :: aset rest k v

/-- Python `del d[k]`: drop every binding of the key (there is at most one). -/
def adel {κ α : Type} [DecidableEq κ] (m : List (κ × α)) (k : κ) :
    List (κ × α) :=
  m.filter (fun p => p.1 ≠ k)

/-! ### Grid constants and cell access (`graph_compiler.py` top of file) -/

def WALL : Nat := 0
def PATH : Nat := 1
def START : Nat := 2
def TARGET : Nat := 3

def GRID_SIZE : Nat := 30
def NODE_SPACING : Nat := 4
def BORDER : Nat := 1

/-- Grid cell position `(row, col)`. -/
abbrev Pos := Nat × Nat

/-- A 2D grid of cell tokens, row major, as in the Python `List[List[int]]`. -/
abbrev Grid := List (List Nat)

/-- `grid[r][c]`; all accesses performed by the source are in bounds, the
default `0` is never observed by an in-bounds access. -/
def getCell (g : Grid) (r c : Nat) : Nat := (g.getD r []).getD c WALL

/-- `grid[r][c] = v` (no-op when out of bounds, which the source never is). -/
def setCell (g : Grid) (r c v : Nat) : Grid := g.set r ((g.getD r []).set c v)

/-- The all-`WALL` 30×30 grid (`[[WALL] * GRID_SIZE for _ in range(GRID_SIZE)]`). -/
def emptyGrid : Grid := List.replicate GRID_SIZE (List.replicate GRID_SIZE WALL)

/-! ### Graph data model (`graph_compiler.py`) -/

/-- One element of `accessibility_snapshot["key_elements"]`; the Python dict
may lack any of the three keys, hence `Option`. -/
structure KeyElem where
  id : Option String
  text : Option String
  content_desc : Option String
deriving DecidableEq

/-- `GraphNode`. `accessibility_snapshot` is modelled by the contents of its
`key_elements` key: `none` stands for the empty (falsy) dict, `some xs` for a
non-empty (truthy) dict whose `key_elements` entry is `xs` (defaulting to `[]`
when absent). -/
structure GraphNode where
  id : String
  label : String
  edges : List String
  accessibility_snapshot : Option (List KeyElem) := none
  dynamic : Bool := false
deriving DecidableEq

/-- The `action` dict of an edge: `typ` models `action.get("type", ...)`
(`none` when the key is absent), `selector` models `action.get("selector", {})`. -/
structure EdgeAction where
  typ : Option String
  selector : List (String × String)
deriving DecidableEq

/-- `GraphEdge`; `action = none` models the empty (falsy) `{}` action dict. -/
structure GraphEdge where
  from_node : String
  to_node : String
  action : Option EdgeAction := none
  weight : Nat := 1
  bidirectional : Bool := false
deriving DecidableEq

/-- `AppGraph`; `nodes` is the insertion-ordered `Dict[str, GraphNode]`. -/
structure AppGraph where
  app_package : String
  nodes : List (String × GraphNode)
  edges : List GraphEdge
deriving DecidableEq

/-- First phase of `AppGraph.get_neighbors`: the pass over `self.edges`
(which appends without any duplicate check). -/
def get_neighbors_edges (g : AppGraph) (node_id : String) : List String :=
  g.edges.foldl
    (fun acc e =>
      if e.from_node = node_id then acc ++ [e.to_node]
      else if e.bidirectional ∧ e.to_node = node_id then acc ++ [e.from_node]
      else acc)
    []

/-- `AppGraph.get_neighbors`: the edge pass followed by the node's own
`edges` list, the latter filtered against the accumulated result. -/
def get_neighbors (g : AppGraph) (node_id : String) : List String :=
  let neighbors := get_neighbors_edges g node_id
  match afind g.nodes node_id with
  | none => neighbors
  | some node =>
      node.edges.foldl (fun acc e => if e ∈ acc then acc else acc ++ [e]) neighbors

/-- `AppGraph.get_edge`. -/
def get_edge (g : AppGraph) (from_id to_id : String) : Option GraphEdge :=
  g.edges.find? fun e =>
    (e.from_node = from_id ∧ e.to_node = to_id) ∨
    (e.bidirectional ∧ e.to_node = from_id ∧ e.from_node = to_id)

/-! ### Graph compiler: node layout (`GraphCompiler._layout_nodes`) -/

/-- Mutable state of a `GraphCompiler` during `compile`. -/
structure LayoutState where
  grid : Grid
  node_positions : List (String × Pos)
  position_to_node : List (Pos × String)
deriving DecidableEq

def LayoutState.empty : LayoutState :=
  { grid := emptyGrid, node_positions := [], position_to_node := [] }

/-- `math.ceil(math.sqrt n)`, i.e. the least `k` with `n ≤ k * k` (exact for
the integer ranges involved; `k = n` always qualifies for `n ≠ 1`, and `1`
qualifies for `n = 1`, so the search never falls through to the default). -/
def ceilSqrt (n : Nat) : Nat :=
  (((List.range (n + 1)).find? fun k => decide (n ≤ k * k))).getD n

/-- `math.ceil(n / d)` for `d > 0`. -/
def ceilDiv (n d : Nat) : Nat := (n + d - 1) / d

/-- The `while queue:` loop of `GraphCompiler._bfs_order`, fuel-based.
Arguments: queue, `visited` (the output list), `seen`. Any fuel above the
number of loop iterations (at most one pop per distinct pushed node, see
`bfs_order`) gives the Python result. -/
def bfs_order_loop (g : AppGraph) : Nat → List String → List String →
    List String → List String
  | 0, _, visited, _ => visited
  | _ + 1, [], visited, _ => visited
  | fuel + 1, node :: rest, visited, seen =>
      let visited := visited ++ [node]
      let step := (get_neighbors g node).foldl
        (fun (qs : List String × List String) neighbor =>
          if neighbor ∉ qs.2 ∧ (afind g.nodes neighbor).isSome then
            (qs.1 ++ [neighbor], qs.2 ++ [neighbor])
          else qs)
        (rest, seen)
      bfs_order_loop g fuel step.1 visited step.2

/-- `GraphCompiler._bfs_order`. Each node is pushed at most once (guarded by
`seen`), so `len(nodes) + 1` pops dominate the Python loop. -/
def bfs_order (g : AppGraph) (start : String) : List String :=
  bfs_order_loop g (g.nodes.length + 1) [start] [] [start]

/-- The collision-resolution `while (r, c) in self.position_to_node:` loop of
`_layout_nodes`. Returns the final `(r, c)`; the `break` once `r` reaches
`GRID_SIZE - BORDER` returns the current (possibly still occupied) cell.
The loop moves right, wrapping to the next row, and stops at the latest when
`r` reaches 29, so any fuel ≥ 900 reproduces the Python loop exactly. -/
def probe_position (position_to_node : List (Pos × String)) :
    Nat → Nat → Nat → Pos
  | 0, r, c => (r, c)
  | fuel + 1, r, c =>
      if (afind position_to_node (r, c)).isSome then
        let c' := c + 1
        if GRID_SIZE - BORDER ≤ c' then
          let c'' := BORDER + 1
          let r' := r + 1
          if GRID_SIZE - BORDER ≤ r' then (r', c'')
          else probe_position position_to_node fuel r' c''
        else probe_position position_to_node fuel r c'
      else (r, c)

/-- Placement of one node (the body of the `for idx, node_id in
enumerate(ordered):` loop of `_layout_nodes`). -/
def place_node (cols row_spacing col_spacing : Nat) (st : LayoutState)
    (idx : Nat) (node_id : String) : LayoutState :=
  let row_idx := idx / cols
  let col_idx := idx % cols
  let r := Nat.min (BORDER + 1 + row_idx * row_spacing) (GRID_SIZE - BORDER - 1)
  let c := Nat.min (BORDER + 1 + col_idx * col_spacing) (GRID_SIZE - BORDER - 1)
  let rc := probe_position st.position_to_node 900 r c
  { grid := setCell st.grid rc.1 rc.2 PATH
    node_positions := aset st.node_positions node_id rc
    position_to_node := aset st.position_to_node rc node_id }

/-- `GraphCompiler._layout_nodes` (started from the freshly reset state). -/
def layout_nodes (g : AppGraph) : LayoutState :=
  if g.nodes = [] then LayoutState.empty
  else
    let node_ids := g.nodes.map Prod.fst
    let n := node_ids.length
    let usable_size := GRID_SIZE - 2 * BORDER
    let cols := Nat.max 1 (ceilSqrt n)
    let rows := Nat.max 1 (ceilDiv n cols)
    let col_spacing := Nat.max NODE_SPACING (usable_size / Nat.max cols 1)
    let row_spacing := Nat.max NODE_SPACING (usable_size / Nat.max rows 1)
    let col_spacing :=
      if 1 < cols then
        Nat.min col_spacing ((usable_size - 1) / Nat.max (cols - 1) 1)
      else usable_size / 2
    let row_spacing :=
      if 1 < rows then
        Nat.min row_spacing ((usable_size - 1) / Nat.max (rows - 1) 1)
      else usable_size / 2
    let ordered := bfs_order g (node_ids.headD "")
    let ordered := node_ids.foldl
      (fun ord nid => if nid ∈ ord then ord else ord ++ [nid]) ordered
    (ordered.enum.foldl
      (fun st p => place_node cols row_spacing col_spacing st p.1 p.2)
      LayoutState.empty)

/-! ### Edge tracing (`GraphCompiler._trace_l_path`, `_trace_edges`) -/

/-- `if self.grid[r][c] == WALL: self.grid[r][c] = PATH`. -/
def setWallToPath (g : Grid) (r c : Nat) : Grid :=
  if getCell g r c = WALL then setCell g r c PATH else g

/-- Columns visited by the horizontal segment of `_trace_l_path`, in visit
order (`c1` towards `c2`, both inclusive). -/
def spanCells (a b : Nat) : List Nat :=
  if a ≤ b then List.range' a (b - a + 1)
  else (List.range' b (a - b + 1)).reverse

/-- `GraphCompiler._trace_l_path`: horizontal segment along row `r1`, then
vertical segment along column `c2`; only `WALL` cells become `PATH`. -/
def trace_l_path (g : Grid) (r1 c1 r2 c2 : Nat) : Grid :=
  let g := (spanCells c1 c2).foldl (fun gr c => setWallToPath gr r1 c) g
  (spanCells r1 r2).foldl (fun gr r => setWallToPath gr r c2) g

/-- Trace one edge `(a, b)` of `_trace_edges` given the `traced` set: skip if
already traced or an endpoint is unplaced; returns the new grid and `traced`
additions. `bidi` adds the reverse direction to `traced`. -/
def trace_one (positions : List (String × Pos)) (gt : Grid × List (String × String))
    (a b : String) (bidi : Bool) : Grid × List (String × String) :=
  if (a, b) ∈ gt.2 then gt
  else
    let traced := gt.2 ++ [(a, b)]
    match afind positions a, afind positions b with
    | some p1, some p2 =>
        let grid := trace_l_path gt.1 p1.1 p1.2 p2.1 p2.2
        (grid, if bidi then traced ++ [(b, a)] else traced)
    | _, _ => (gt.1, if bidi then traced ++ [(b, a)] else traced)

/-- `GraphCompiler._trace_edges`: the explicit-edge pass, then the
`node.edges` pass. -/
def trace_edges (g : AppGraph) (positions : List (String × Pos))
    (grid : Grid) : Grid :=
  let gt := g.edges.foldl
    (fun gt e => trace_one positions gt e.from_node e.to_node e.bidirectional)
    (grid, [])
  (g.nodes.foldl
    (fun gt p => p.2.edges.foldl
      (fun gt nb => trace_one positions gt p.1 nb false) gt)
    gt).1

/-! ### `GraphCompiler.compile` -/

/-- Result dictionary of a successful `compile`; `position_to_node` keeps
`Pos` keys (in Python they are rendered as `"r,c"` strings on output). -/
structure CompileResult where
  grid : List Nat
  grid_2d : Grid
  width : Nat
  height : Nat
  node_positions : List (String × Pos)
  position_to_node : List (Pos × String)
  start_pos : Pos
  target_pos : Pos
deriving DecidableEq

/-- `GraphCompiler.compile`; the `ValueError` raises become `Except.error`
with the Python message. -/
def compile (g : AppGraph) (start_node target_node : String) :
    Except String CompileResult :=
  let st := layout_nodes g
  let grid := trace_edges g st.node_positions st.grid
  match afind st.node_positions start_node with
  | none => .error ("Start node '" ++ start_node ++ "' not found in graph")
  | some sp =>
      match afind st.node_positions target_node with
      | none => .error ("Target node '" ++ target_node ++ "' not found in graph")
      | some tp =>
          let grid := setCell grid sp.1 sp.2 START
          let grid := setCell grid tp.1 tp.2 TARGET
          .ok { grid := grid.flatten
                grid_2d := grid
                width := GRID_SIZE
                height := GRID_SIZE
                node_positions := st.node_positions
                position_to_node := st.position_to_node
                start_pos := sp
                target_pos := tp }

/-! ### `GraphCompiler.decode_hrm_path` -/

/-- The reverse mapping built at the start of `decode_hrm_path`. -/
def pos_to_node_of (node_positions : List (String × Pos)) : List (Pos × String) :=
  node_positions.foldl (fun acc p => aset acc p.2 p.1) []

/-- The body of the `for r, c in hrm_path:` loop of `decode_hrm_path`. -/
def decodeStep (ptn : List (Pos × String)) (seq : List String) (p : Pos) :
    List String :=
  match afind ptn p with
  | some node_id =>
      if seq = [] ∨ seq.getLast? ≠ some node_id then seq ++ [node_id] else seq
  | none => seq

/-- `GraphCompiler.decode_hrm_path`. -/
def decode_hrm_path (hrm_path : List Pos)
    (node_positions : List (String × Pos)) : List String :=
  hrm_path.foldl (decodeStep (pos_to_node_of node_positions)) []

/-! ### Planner data model (`planner.py`) -/

/-- Values of the `params` dict of an intent (strings, ints, bools). -/
inductive PVal where
  | s (v : String)
  | n (v : Int)
  | b (v : Bool)
deriving DecidableEq

/-- Reversed digit string with `,` inserted after every third digit. -/
def commaChunks : List Char → List Char
  | [] => []
  | a :: b :: c :: d :: rest => a :: b :: c :: ',' :: commaChunks (d :: rest)
  | l => l

/-- Python `f"{n:,}"` for a natural number, e.g. `50000 ↦ "50,000"`. -/
def commaFmt (n : Nat) : String :=
  String.mk (commaChunks (Nat.repr n).data.reverse).reverse

/-- Python `str(v)`. (For the `recipient`/`source` values the source passes
the raw value where a string is expected; in every verified scenario those
values are strings, on which `pvalStr` is the identity.) -/
def pvalStr : PVal → String
  | .s v => v
  | .n v => Int.repr v
  | .b true => "True"
  | .b false => "False"

/-- Python `f"{v:,}"`. Formatting a `str` with `,` raises `ValueError` in
Python; it is modelled by the identity and is unreachable in the verified
scenarios (the amount is always an int there). Bools format as ints. -/
def pvalFmtComma : PVal → String
  | .n v => if v < 0 then "-" ++ commaFmt (-v).toNat else commaFmt v.toNat
  | .s v => v
  | .b true => "1"
  | .b false => "0"

/-- `Intent` (the `confidence` float plays no role in any planner decision
and is omitted from the embedding). -/
structure Intent where
  name : String
  params : List (String × PVal) := []
  raw_text : String := ""
deriving DecidableEq

/-- `ActionStep`. -/
structure ActionStep where
  index : Nat
  action : String
  selector : List (String × String) := []
  value : String := ""
  expected_screen : String := ""
  description : String := ""
  timeout_ms : Nat := 5000
deriving DecidableEq

/-- `ExecutionPlan`. -/
structure ExecutionPlan where
  intent : Intent
  steps : List ActionStep := []
  checkpoints : List String := []
  summary : String := ""
  requires_confirmation : Bool := true
  estimated_time_ms : Nat := 0
deriving DecidableEq

/-- `INTENT_CHECKPOINTS`. -/
def INTENT_CHECKPOINTS : List (String × List String) :=
  [("send_money",
    ["home", "transfers", "send_contact", "enter_amount", "confirm_send",
     "success"]),
   ("send_money_from_pocket",
    ["home", "pockets", "pocket_detail", "withdraw_pocket", "home",
     "transfers", "send_contact", "enter_amount", "confirm_send", "success"]),
   ("check_balance", ["home"]),
   ("transfer_pocket", ["home", "pockets", "pocket_detail", "withdraw_pocket"]),
   ("pay_bill", ["home", "payments", "pay_bill"]),
   ("transaction_history", ["home"])]

/-! ### `Planner._resolve_checkpoints` -/

/-- The duplicate-removal loop at the end of `_resolve_checkpoints`
(`seen` set, `deduped` output; `"home"` is always re-admitted). -/
def dedupLoop : List String → List String → List String → List String
  | [], _, out => out
  | cp :: rest, seen, out =>
      if cp ∉ seen ∨ cp = "home" then dedupLoop rest (seen ++ [cp]) (out ++ [cp])
      else dedupLoop rest seen out

def dedup_keep_home (l : List String) : List String := dedupLoop l [] []

/-- `Planner._resolve_checkpoints`. A non-string `source` param would raise
`AttributeError` on `.startswith` in Python; it is modelled as a
non-match (no verified scenario passes one). -/
def resolve_checkpoints (intent : Intent) (current_screen : String) :
    List String :=
  let sourceIsPocket :=
    match afind intent.params "source" with
    | some (.s v) => v.startsWith "bolsillo"
    | some _ => false
    | none => false
  let intent_key :=
    if intent.name = "send_money" ∧ sourceIsPocket = true then
      "send_money_from_pocket"
    else intent.name
  let checkpoints := (afind INTENT_CHECKPOINTS intent_key).getD []
  if checkpoints = [] then [current_screen]
  else
    let checkpoints :=
      if checkpoints.head? ≠ some current_screen then
        current_screen :: checkpoints
      else checkpoints
    dedup_keep_home checkpoints

/-! ### `Planner._bfs_graph_path` -/

/-- The `while queue:` loop of `_bfs_graph_path`; at most one push per node
(guarded by `visited`), so `len(nodes) + 1` pops dominate the Python loop. -/
def bfs_graph_path_loop (g : AppGraph) (target : String) :
    Nat → List (String × List String) → List String → List String
  | 0, _, _ => []
  | _ + 1, [], _ => []
  | fuel + 1, (current, path) :: rest, visited =>
      if current = target then path
      else
        let step := (get_neighbors g current).foldl
          (fun (qv : List (String × List String) × List String) neighbor =>
            if neighbor ∉ qv.2 ∧ (afind g.nodes neighbor).isSome then
              (qv.1 ++ [(neighbor, path ++ [neighbor])], qv.2 ++ [neighbor])
            else qv)
          (rest, visited)
        bfs_graph_path_loop g target fuel step.1 step.2

def bfs_graph_path (g : AppGraph) (start target : String) : List String :=
  bfs_graph_path_loop g target (g.nodes.length + 1) [(start, [start])] [start]

/-! ### `Planner._build_action_step` and `_build_param_steps` -/

/-- `Planner._build_action_step` (its `intent` parameter is unused in the
source and omitted here; the Python `Optional` return is never `None`). -/
def build_action_step (g : AppGraph) (index : Nat)
    (from_node to_node : String) : ActionStep :=
  let target_node := afind g.nodes to_node
  let snapshot_step : Option ActionStep :=
    match target_node with
    | some nd =>
        match nd.accessibility_snapshot with
        | some key_elements =>
            match key_elements with
            | elem :: _ =>
                some { index
                       action := "tap"
                       selector := [("id", elem.id.getD ""),
                                    ("text", elem.text.getD ""),
                                    ("content_desc", elem.content_desc.getD "")]
                       expected_screen := to_node
                       description := "Tap: " ++ elem.text.getD to_node }
            | [] => none
        | none => none
    | none => none
  let edge_step : Option ActionStep :=
    match get_edge g from_node to_node with
    | some e =>
        match e.action with
        | some act =>
            some { index
                   action := act.typ.getD "tap"
                   selector := act.selector
                   expected_screen := to_node
                   description := "Navigate: " ++ from_node ++ " → " ++ to_node }
        | none => none
    | none => none
  match edge_step with
  | some st => st
  | none =>
      match snapshot_step with
      | some st => st
      | none =>
          let label := match target_node with
            | some nd => nd.label
            | none => to_node
          { index
            action := "tap"
            selector := [("text", label), ("content_desc", label)]
            expected_screen := to_node
            description := "Navigate to: " ++ label }

/-- `Planner._build_param_steps`. -/
def build_param_steps (start_index : Nat) (screen : String)
    (intent : Intent) : List ActionStep :=
  let si : List ActionStep × Nat := ([], start_index)
  let si :=
    if screen = "enter_amount" then
      match afind intent.params "amount" with
      | some amount =>
          (si.1 ++ [{ index := si.2
                      action := "fill"
                      selector := [("id", "amount_input"),
                                   ("class", "android.widget.EditText")]
                      value := pvalStr amount
                      expected_screen := screen
                      description := "Enter amount: $" ++ pvalFmtComma amount }],
           si.2 + 1)
      | none => si
    else si
  let si :=
    if screen = "send_contact" then
      match afind intent.params "recipient" with
      | some recipient =>
          (si.1 ++ [{ index := si.2
                      action := "fill"
                      selector := [("id", "search_recipient"),
                                   ("class", "android.widget.EditText")]
                      value := pvalStr recipient
                      expected_screen := screen
                      description := "Search recipient: " ++ pvalStr recipient },
                    { index := si.2 + 1
                      action := "tap"
                      selector := [("text", pvalStr recipient)]
                      expected_screen := screen
                      description := "Select: " ++ pvalStr recipient }],
           si.2 + 2)
      | none => si
    else si
  let si :=
    if screen = "pocket_detail" then
      match afind intent.params "source" with
      | some source =>
          let pocket_name := (pvalStr source).replace "bolsillo_" ""
          (si.1 ++ [{ index := si.2
                      action := "tap"
                      selector := [("text", pocket_name),
                                   ("content_desc", pocket_name)]
                      expected_screen := screen
                      description := "Select pocket: " ++ pocket_name }],
           si.2 + 1)
      | none => si
    else si
  si.1

/-- `Planner._build_summary`. -/
def build_summary (intent : Intent) : String :=
  if intent.name = "send_money" then
    let amount := (afind intent.params "amount").getD (.s "?")
    let recipient := pvalStr ((afind intent.params "recipient").getD (.s "?"))
    let source := pvalStr ((afind intent.params "source").getD
      (.s "cuenta principal"))
    "Enviar $" ++ pvalFmtComma amount ++ " a " ++ recipient ++ " desde " ++ source
  else if intent.name = "check_balance" then "Consultar saldo"
  else if intent.name = "transfer_pocket" then "Transferir entre bolsillos"
  else if intent.name = "pay_bill" then
    "Pagar servicio: " ++ pvalStr ((afind intent.params "service").getD (.s "?"))
  else "Ejecutar: " ++ intent.name

/-- `Planner._needs_confirmation`. -/
def needs_confirmation (intent : Intent) : Bool :=
  intent.name ∈ ["send_money", "send_money_from_pocket", "pay_bill",
                 "transfer_pocket"]

/-! ### `Planner.plan` -/

/-- `Planner.plan`; `hrm_solve_fn = none` is the BFS-fallback configuration. -/
def plan (g : AppGraph) (intent : Intent) (current_screen : String)
    (hrm_solve_fn : Option (List Nat → Nat → Nat → List Pos × Bool)) :
    ExecutionPlan :=
  let checkpoints := resolve_checkpoints intent current_screen
  let stepsIdx := (List.range (checkpoints.length - 1)).foldl
    (fun (si : List ActionStep × Nat) i =>
      let from_screen := checkpoints.getD i ""
      let to_screen := checkpoints.getD (i + 1) ""
      if from_screen = to_screen then si
      else
        match compile g from_screen to_screen with
        | .error _ => si
        | .ok mz =>
            let path_nodes :=
              match hrm_solve_fn with
              | some f =>
                  let ps := f mz.grid mz.width mz.height
                  if ps.2 ∧ ps.1 ≠ [] then decode_hrm_path ps.1 mz.node_positions
                  else []
              | none => []
            let path_nodes :=
              if path_nodes = [] then bfs_graph_path g from_screen to_screen
              else path_nodes
            if path_nodes = [] then si
            else
              let si := (List.range (path_nodes.length - 1)).foldl
                (fun (si : List ActionStep × Nat) j =>
                  (si.1 ++ [build_action_step g si.2 (path_nodes.getD j "")
                              (path_nodes.getD (j + 1) "")],
                   si.2 + 1))
                si
              let ps := build_param_steps si.2 to_screen intent
              (si.1 ++ ps, si.2 + ps.length))
    ([], 0)
  { intent
    steps := stepsIdx.1
    checkpoints
    summary := build_summary intent
    requires_confirmation := needs_confirmation intent
    estimated_time_ms := stepsIdx.1.length * 2000 }

/-! ### `BankService._handle_action_result` (`bank_service.py`) -/

/-- An outbound WebSocket message as assembled by the handler. -/
structure OutMsg where
  type : String
  requestId : String
  payload : List (String × PVal)
deriving DecidableEq

/-- The fields of an inbound `action_result` message, with the handler's
defaults (`msg.get('requestId', '')`, `payload.get('stepIndex', -1)`, …). -/
structure ActionResultMsg where
  requestId : String := ""
  stepIndex : Int := -1
  success : Bool := false
  newScreenFingerprint : String := ""
  error : String := ""
deriving DecidableEq

/-- The service state touched by `_handle_action_result`. -/
structure BankState where
  active_plans : List (String × ExecutionPlan)
  current_screen : List (String × String)
deriving DecidableEq

/-- Python list indexing `l[i]` (negative indices count from the end;
`none` is an `IndexError`). -/
def pyGet {α : Type} (l : List α) (i : Int) : Option α :=
  if 0 ≤ i then l.get? i.toNat
  else if (-i) ≤ (l.length : Int) then l.get? (l.length - (-i).toNat)
  else none

/-- `BankService._handle_action_result` as a pure transition. Returns the
outbound messages and the new state; `none` models the only uncaught
exception (`IndexError` on `plan.steps[step_index]`), which aborts the
handler before any send or state change. -/
def handle_action_result (st : BankState) (msg : ActionResultMsg) :
    Option (List OutMsg × BankState) :=
  match afind st.active_plans msg.requestId with
  | none => some ([], st)
  | some p =>
      if msg.success then
        let app :=
          match afind p.intent.params "app" with
          | some (.s a) => a
          | some v => pvalStr v
          | none => "com.bancolombia.app"
        let st :=
          if msg.newScreenFingerprint ≠ "" then
            { st with
              current_screen := aset st.current_screen app msg.newScreenFingerprint }
          else st
        if (p.steps.length : Int) - 1 ≤ msg.stepIndex then
          some ([{ type := "plan_complete",
                   requestId := msg.requestId,
                   payload := [("summary", .s p.summary),
                               ("success", .b true)] }],
                { st with active_plans := adel st.active_plans msg.requestId })
        else some ([], st)
      else
        let expectedE : Option String :=
          if msg.stepIndex < (p.steps.length : Int) then
            (pyGet p.steps msg.stepIndex).map (·.expected_screen)
          else some ""
        match expectedE with
        | none => none
        | some expected =>
            if msg.newScreenFingerprint ≠ "" ∧
                msg.newScreenFingerprint ≠ expected then
              some ([{ type := "plan_error",
                       requestId := msg.requestId,
                       payload := [("stepIndex", .n msg.stepIndex),
                                   ("error", .s msg.error),
                                   ("action", .s "retry")] }], st)
            else some ([], st)

/-! ### `HRMModel._bfs_solve` (`hrm_service.py`) -/

/-- The direction-check order of `_bfs_solve`: up, down, left, right. -/
def bfsDirections : List (Int × Int) := [(-1, 0), (1, 0), (0, -1), (0, 1)]

/-- The `for dr, dc in directions:` body of `_bfs_solve`: bounds check, then
visited check, then `WALL` check; a admitted neighbour is pushed and marked
visited immediately. -/
def bfs_expand (grid : Grid) (width height : Nat) (p : Pos)
    (path : List Pos) (queue : List (Pos × List Pos)) (visited : List Pos) :
    List (Pos × List Pos) × List Pos :=
  bfsDirections.foldl
    (fun (qv : List (Pos × List Pos) × List Pos) d =>
      let nr : Int := (p.1 : Int) + d.1
      let nc : Int := (p.2 : Int) + d.2
      if 0 ≤ nr ∧ nr < (height : Int) ∧ 0 ≤ nc ∧ nc < (width : Int) then
        let np : Pos := (nr.toNat, nc.toNat)
        if np ∉ qv.2 then
          if getCell grid np.1 np.2 ≠ WALL then
            (qv.1 ++ [(np, path ++ [np])], qv.2 ++ [np])
          else qv
        else qv
      else qv)
    (queue, visited)

/-- The `while queue:` loop of `_bfs_solve`. Every push marks a fresh cell
visited, so `width*height + 1` pops dominate the Python loop (shown where
needed by the fuel-adequacy argument in the theorems below). -/
def bfs_solve_loop (grid : Grid) (width height : Nat) (target : Pos) :
    Nat → List (Pos × List Pos) → List Pos → List Pos
  | 0, _, _ => []
  | _ + 1, [], _ => []
  | fuel + 1, (p, path) :: rest, visited =>
      if p = target then path
      else
        let qv := bfs_expand grid width height p path rest visited
        bfs_solve_loop grid width height target fuel qv.1 qv.2

/-- `HRMModel._bfs_solve` (argument order as in the source). -/
def bfs_solve (grid : Grid) (start target : Pos) (width height : Nat) :
    List Pos :=
  bfs_solve_loop grid width height target (width * height + 1)
    [(start, [start])] [start]

/-- The neighbour of `p` in direction `d` (`new_row, new_col` of the source,
converted back to `Nat` coordinates once the bounds check has passed). -/
def ofDir (p : Pos) (d : Int × Int) : Pos :=
  (((p.1 : Int) + d.1).toNat, ((p.2 : Int) + d.2).toNat)

/-- The source's bounds check `0 <= new_row < height and 0 <= new_col < width`. -/
def inDir (p : Pos) (d : Int × Int) (height width : Nat) : Prop :=
  0 ≤ (p.1 : Int) + d.1 ∧ (p.1 : Int) + d.1 < (height : Int) ∧
    0 ≤ (p.2 : Int) + d.2 ∧ (p.2 : Int) + d.2 < (width : Int)

instance (p : Pos) (d : Int × Int) (height width : Nat) :
    Decidable (inDir p d height width) := by unfold inDir; infer_instance

/-- One direction of the `for dr, dc in directions:` body, named so single
steps of `bfs_expand` can be reasoned about (the body is copied verbatim
from `bfs_expand`, which folds it over `bfsDirections`). -/
def bfs_step (grid : Grid) (width height : Nat) (p : Pos) (path : List Pos)
    (qv : List (Pos × List Pos) × List Pos) (d : Int × Int) :
    List (Pos × List Pos) × List Pos :=
  let nr : Int := (p.1 : Int) + d.1
  let nc : Int := (p.2 : Int) + d.2
  if 0 ≤ nr ∧ nr < (height : Int) ∧ 0 ≤ nc ∧ nc < (width : Int) then
    let np : Pos := (nr.toNat, nc.toNat)
    if np ∉ qv.2 then
      if getCell grid np.1 np.2 ≠ WALL then
        (qv.1 ++ [(np, path ++ [np])], qv.2 ++ [np])
      else qv
    else qv
  else qv

/-- 4-directional adjacency, phrased through the solver's own direction
list: `b` is one `bfsDirections` step away from `a`. -/
def adjacent (a b : Pos) : Prop :=
  ∃ d ∈ bfsDirections, (b.1 : Int) = (a.1 : Int) + d.1 ∧
    (b.2 : Int) = (a.2 : Int) + d.2

/-- A legal move of the BFS reference solver: one 4-directional step onto an
in-bounds, non-`WALL` cell (the source checks the *entered* cell only). -/
def walkStep (grid : Grid) (width height : Nat) (a b : Pos) : Prop :=
  adjacent a b ∧ b.1 < height ∧ b.2 < width ∧ getCell grid b.1 b.2 ≠ WALL

/-- A cell path from `start` to `c`: non-empty, starts at `start`, ends at
`c`, and every consecutive pair is a legal solver move. -/
def isWalkTo (grid : Grid) (width height : Nat) (start c : Pos)
    (ps : List Pos) : Prop :=
  ps.head? = some start ∧ ps.getLast? = some c ∧
    List.Chain' (walkStep grid width height) ps

/-- All in-bounds cell positions of a `height × width` grid. -/
def allCells (height width : Nat) : List Pos :=
  (List.range height).flatMap fun r => (List.range width).map fun c => (r, c)

/-- The number of in-bounds cells not yet visited; together with the queue
length this is the termination measure of the BFS loop. -/
def unvis (height width : Nat) (v : List Pos) : Nat :=
  (allCells height width).countP fun c => decide (c ∉ v)

/-- State of the BFS queue/visited pair part-way through expanding the
popped entry `(p, path)` (whose tail was `rest` over visited set `V₀`):
the new entries are exactly the freshly discovered neighbours of `p`,
appended in step order, and the loop measure is unchanged. -/
def ExpState (grid : Grid) (width height : Nat) (p : Pos) (path : List Pos)
    (rest : List (Pos × List Pos)) (V₀ : List Pos)
    (qv : List (Pos × List Pos) × List Pos) : Prop :=
  ∃ newE : List (Pos × List Pos),
    qv.1 = rest ++ newE ∧
    qv.2 = V₀ ++ newE.map Prod.fst ∧
    qv.2.Nodup ∧
    (∀ e ∈ newE, ∃ np : Pos, e = (np, path ++ [np]) ∧ np ∉ V₀ ∧
        np.1 < height ∧ np.2 < width ∧ getCell grid np.1 np.2 ≠ WALL ∧
        adjacent p np) ∧
    qv.1.length + unvis height width qv.2 =
      rest.length + unvis height width V₀

/-! ### Concrete instances used by the scenario claims -/

/-- A graph node with the given neighbour list and no further metadata
(the scenario graphs give no labels; the label defaults to the id). -/
def gnode (id : String) (edges : List String) : String × GraphNode :=
  (id, { id := id, label := id, edges := edges })

/-- The scenario graph
`{home→[transfers,pockets], transfers→[send, home], send→[confirm], confirm→[success]}`. -/
def c1Graph : AppGraph :=
  { app_package := "com.bancolombia.app"
    nodes := [gnode "home" ["transfers", "pockets"],
              gnode "transfers" ["send", "home"],
              gnode "pockets" [],
              gnode "send" ["confirm"],
              gnode "confirm" ["success"],
              gnode "success" []]
    edges := [] }

/-- The scenario intent `send_money {amount: 50000, recipient: "María"}`. -/
def c1Intent : Intent :=
  { name := "send_money"
    params := [("amount", .n 50000), ("recipient", .s "María")] }

/-- A layout state in which cell `(28, 28)` is occupied by node `"b"` and the
overflow cell `(29, 2)` is already occupied by node `"c"` (the situation the
collision-resolution loop reaches once the 27×27 usable cells are exhausted,
as happens when compiling a 731-node graph, where the layout parameters are
`cols = 28`, `row_spacing = col_spacing = 1`). -/
def c4State : LayoutState :=
  { grid := emptyGrid
    node_positions := [("b", (28, 28)), ("c", (29, 2))]
    position_to_node := [((28, 28), "b"), ((29, 2), "c")] }

/-- A three-step plan used by the execution-monitor scenario. -/
def c3Step (i : Nat) (expected : String) : ActionStep :=
  { index := i, action := "tap", expected_screen := expected }

def c3Plan : ExecutionPlan :=
  { intent := c1Intent
    steps := [c3Step 0 "transfers", c3Step 1 "send_contact", c3Step 2 "enter_amount"]
    checkpoints := ["home", "transfers", "send_contact", "enter_amount"]
    summary := "Enviar $50,000 a María desde cuenta principal"
    requires_confirmation := true
    estimated_time_ms := 6000 }

def c3State : BankState :=
  { active_plans := [("req-1", c3Plan)]
    current_screen := [("com.bancolombia.app", "send_contact")] }

/-- `action_result`: failure at step 2, resulting screen diverging from the
step's `expected_screen` (`"enter_amount"`). -/
def c3Msg : ActionResultMsg :=
  { requestId := "req-1"
    stepIndex := 2
    success := false
    newScreenFingerprint := "error_dialog"
    error := "tap failed" }

/-- The duplicate-edge graph refuting the at-most-once claim for
`get_neighbors`: the same directed transition `u → v` recorded twice in the
explicit edge list. -/
def c7Graph : AppGraph :=
  { app_package := "dup"
    nodes := [gnode "u" [], gnode "v" []]
    edges := [{ from_node := "u", to_node := "v" },
              { from_node := "u", to_node := "v" }] }

/-- A graph exercising both transition representations for the `C7` witness:
an explicit edge `u → v`, a bidirectional edge `w → u`, and `u`'s own
neighbour list `[v, x]`. -/
def c7WitnessGraph : AppGraph :=
  { app_package := "wit"
    nodes := [gnode "u" ["v", "x"], gnode "v" [], gnode "w" [], gnode "x" []]
    edges := [{ from_node := "u", to_node := "v" },
              { from_node := "w", to_node := "u", bidirectional := true }] }

/-- The single `plan_error` message `_handle_action_result` emits on the
diverging failure `c3Msg`. -/
def c3ErrMsg : OutMsg :=
  { type := "plan_error"
    requestId := "req-1"
    payload := [("stepIndex", .n 2), ("error", .s "tap failed"),
                ("action", .s "retry")] }

/-- An intent with a pocket source, exercising the variant table entry. -/
def c10Intent : Intent :=
  { name := "send_money"
    params := [("amount", .n 20000), ("recipient", .s "Ana"),
               ("source", .s "bolsillo_ahorros")] }

/-- Node-position mapping for the decoder claims. -/
def c6Nps : List (String × Pos) := [("a", (0, 0)), ("b", (0, 2))]

/-- A solved cell path whose endpoints map to `a` and `b` (the middle
corridor cell maps to no node). -/
def c6Path : List Pos := [(0, 0), (0, 2)]

/-- A solved cell path none of whose cells maps to a node. -/
def c6NonePath : List Pos := [(1, 1), (1, 2)]

/-- A 3×3 grid with the start token at `(0, 0)`, the target token at
`(2, 2)` and a single wall at the centre, used to witness the BFS claim. -/
def c5Grid : Grid := [[2, 1, 1], [1, 0, 1], [1, 1, 3]]

/-- The cells visited by `_trace_l_path`, in order: the horizontal segment
along row `r1`, then the vertical segment along column `c2`. -/
def lCells (r1 c1 r2 c2 : Nat) : List Pos :=
  (spanCells c1 c2).map (fun c => (r1, c)) ++
    (spanCells r1 r2).map (fun r => (r, c2))

/-- Folding `setWallToPath` over a cell list (the common shape of the two
segments of `_trace_l_path`, used to reason about them uniformly). -/
def traceCells (g : Grid) (cells : List Pos) : Grid :=
  cells.foldl (fun gr p => setWallToPath gr p.1 p.2) g

/-- Relation used to carry grid well-formedness through the compile
pipeline: the transformed grid keeps the dimensions of `g0`, and cells
bounded by `PATH` stay bounded. -/
def GridInv (g0 g : Grid) : Prop :=
  g.length = g0.length ∧
  (∀ i, (g.getD i []).length = (g0.getD i []).length) ∧
  ((∀ row ∈ g0, ∀ x ∈ row, x ≤ 1) → ∀ row ∈ g, ∀ x ∈ row, x ≤ 1)

/-! # Theorems

Helper lemmas first, then one theorem per claim (with its witness or
counterexample where required). -/

/-! ### Association-list lemmas -/

theorem afind_aset {κ α : Type} [DecidableEq κ] (m : List (κ × α)) (k k' : κ)
    (v : α) :
    afind (aset m k v) k' = if k = k' then some v else afind m k' := by
  induction m with
  | nil => simp [aset, afind]
  | cons p rest ih =>
      obtain ⟨pk, pv⟩ := p
      by_cases h : pk = k
      · subst h
        simp only [aset, if_pos rfl, afind]
        by_cases h' : pk = k' <;> simp [h']
      · simp only [aset, if_neg h, afind]
        by_cases h' : pk = k'
        · subst h'
          rw [if_pos rfl, if_neg (fun hh => h hh.symm), if_pos rfl]
        · simp [h', ih]

/-! ### Claim C9: `compile` fails with "node not found" iff an endpoint is
absent from the layout's node-position mapping -/

/-- C9. `compile(graph, startNode, targetNode)` returns an error exactly when
the start node or the target node has no entry in the layout's
`node_positions` mapping, and every error it can return is one of the two
"node not found" messages; in the error case no `CompileResult` exists (an
`Except.error` is returned instead of a field). -/
theorem C9_compile_node_not_found (g : AppGraph) (s t : String) :
    ((∃ e, compile g s t = .error e) ↔
      (afind (layout_nodes g).node_positions s = none ∨
       afind (layout_nodes g).node_positions t = none)) ∧
    (∀ e, compile g s t = .error e →
      e = "Start node '" ++ s ++ "' not found in graph" ∨
      e = "Target node '" ++ t ++ "' not found in graph") := by
  cases hs : afind (layout_nodes g).node_positions s with
  | none =>
      constructor
      · simp [compile, hs]
      · intro e he
        simp [compile, hs] at he
        exact Or.inl he.symm
  | some sp =>
      cases ht : afind (layout_nodes g).node_positions t with
      | none =>
          constructor
          · simp [compile, hs, ht]
          · intro e he
            simp [compile, hs, ht] at he
            exact Or.inr he.symm
      | some tp =>
          constructor
          · simp [compile, hs, ht]
          · intro e he
            simp [compile, hs, ht] at he

/-- C9 witness: a concrete failing call, through the theorem itself. -/
theorem C9_witness :
    (∃ e, compile c1Graph "nope" "home" = Except.error e) :=
  (C9_compile_node_not_found c1Graph "nope" "home").1.mpr (Or.inl (by decide))

/-! ### Claim C1: the `send_money` scenario on the scenario graph -/

/-- C1 counterexample. On the scenario graph with intent `send_money
{amount: 50000, recipient: "María"}` from screen `home`, it is *not* the case
that the resolved checkpoint sequence is `[home, transfers, send, confirm,
success]` together with a confirmation flag and a "fill 50000" step: the
resolver takes its sequence from the static `INTENT_CHECKPOINTS` table and
never consults the graph, so the checkpoint sequence differs (and no fill
step is emitted at all on this graph). -/
theorem C1_counterexample :
    ¬ ((plan c1Graph c1Intent "home" none).checkpoints
          = ["home", "transfers", "send", "confirm", "success"] ∧
       (plan c1Graph c1Intent "home" none).requires_confirmation = true ∧
       ∃ st ∈ (plan c1Graph c1Intent "home" none).steps,
         st.action = "fill" ∧ st.value = "50000") := by
  decide

/-- C1 amended: on the scenario graph the resolver/planner produces the
table checkpoint sequence `[home, transfers, send_contact, enter_amount,
confirm_send, success]` (five hops), the plan's requires-confirmation flag
is `true`, and the plan contains no `fill` step (the fill-bearing
checkpoints `send_contact`/`enter_amount` are absent from this graph, so
only the `home → transfers` hop compiles, yielding a single `tap` step). -/
theorem C1_amended :
    resolve_checkpoints c1Intent "home"
        = ["home", "transfers", "send_contact", "enter_amount",
           "confirm_send", "success"] ∧
    (plan c1Graph c1Intent "home" none).checkpoints
        = ["home", "transfers", "send_contact", "enter_amount",
           "confirm_send", "success"] ∧
    (plan c1Graph c1Intent "home" none).requires_confirmation = true ∧
    (∀ st ∈ (plan c1Graph c1Intent "home" none).steps, st.action ≠ "fill") ∧
    (plan c1Graph c1Intent "home" none).steps.length = 1 := by
  refine ⟨by decide, by decide, by decide, by decide, by decide⟩

/-! ### Claim C4: layout collision handling once the field is exhausted -/

/-- C4: evaluation of the layout placement at the exhaustion point. In
`c4State` the probed cell `(28, 28)` and the overflow cell `(29, 2)` are both
occupied; the collision-resolution loop of `_layout_nodes` nevertheless
`break`s out at `r = 29` and `place_node` assigns the new node `"d"` to the
already-occupied cell `(29, 2)` (and keeps it in `node_positions`), instead
of dropping the node: `"c"` and `"d"` end up sharing the coordinate. This is
the state reached for the last two nodes of a 731-node graph (731 nodes need
28 columns at spacing 1, exceeding the 27×27 usable cells). -/
theorem C4_place_onto_occupied :
    probe_position c4State.position_to_node 900 28 28 = (29, 2) ∧
    (afind c4State.position_to_node (29, 2)).isSome = true ∧
    ((place_node 28 1 1 c4State 755 "d").node_positions.filter
        (fun e => e.2 = (29, 2))).map Prod.fst = ["c", "d"] := by
  refine ⟨by decide, by decide, by decide⟩

/-! ### Claim C7: `get_neighbors` and the at-most-once property -/

/-- C7 counterexample. A graph whose explicit edge list records the same
directed transition `u → v` twice makes `get_neighbors` return `v` twice:
the explicit-edge pass appends without a duplicate check (only the
node's own `edges` list is checked against the accumulated result). -/
theorem C7_counterexample :
    ¬ (get_neighbors c7Graph "u").Nodup := by decide

/-- Membership in the explicit-edge pass of `get_neighbors`. -/
theorem mem_get_neighbors_edges (g : AppGraph) (u v : String) :
    v ∈ get_neighbors_edges g u ↔
      ∃ e ∈ g.edges, (e.from_node = u ∧ e.to_node = v) ∨
        (e.bidirectional ∧ e.to_node = u ∧ e.from_node = v) := by
  have main : ∀ (es : List GraphEdge) (acc : List String),
      v ∈ es.foldl
        (fun acc e =>
          if e.from_node = u then acc ++ [e.to_node]
          else if e.bidirectional ∧ e.to_node = u then acc ++ [e.from_node]
          else acc) acc ↔
      v ∈ acc ∨ ∃ e ∈ es, (e.from_node = u ∧ e.to_node = v) ∨
        (e.bidirectional ∧ e.to_node = u ∧ e.from_node = v) := by
    intro es
    induction es with
    | nil => simp
    | cons e rest ih =>
        intro acc
        by_cases h1 : e.from_node = u
        · rw [List.foldl_cons, if_pos h1, ih]
          constructor
          · rintro (hv | ⟨e', he', hc⟩)
            · rcases List.mem_append.mp hv with hv | hv
              · exact Or.inl hv
              · exact Or.inr ⟨e, List.mem_cons_self e rest,
                  Or.inl ⟨h1, (List.mem_singleton.mp hv).symm⟩⟩
            · exact Or.inr ⟨e', List.mem_cons_of_mem _ he', hc⟩
          · rintro (hv | ⟨e', he', hc⟩)
            · exact Or.inl (List.mem_append_left _ hv)
            · rcases List.mem_cons.mp he' with rfl | he'
              · rcases hc with ⟨_, hv⟩ | ⟨_, hto, hv⟩
                · exact Or.inl (List.mem_append_right _
                    (List.mem_singleton.mpr hv.symm))
                · exact Or.inl (List.mem_append_right _
                    (List.mem_singleton.mpr (by rw [hto, ← h1, hv])))
              · exact Or.inr ⟨e', he', hc⟩
        · by_cases h2 : e.bidirectional ∧ e.to_node = u
          · rw [List.foldl_cons, if_neg h1, if_pos h2, ih]
            constructor
            · rintro (hv | ⟨e', he', hc⟩)
              · rcases List.mem_append.mp hv with hv | hv
                · exact Or.inl hv
                · exact Or.inr ⟨e, List.mem_cons_self e rest,
                    Or.inr ⟨h2.1, h2.2, (List.mem_singleton.mp hv).symm⟩⟩
              · exact Or.inr ⟨e', List.mem_cons_of_mem _ he', hc⟩
            · rintro (hv | ⟨e', he', hc⟩)
              · exact Or.inl (List.mem_append_left _ hv)
              · rcases List.mem_cons.mp he' with rfl | he'
                · rcases hc with ⟨hfrom, _⟩ | ⟨_, _, hv⟩
                  · exact absurd hfrom h1
                  · exact Or.inl (List.mem_append_right _
                      (List.mem_singleton.mpr hv.symm))
                · exact Or.inr ⟨e', he', hc⟩
          · rw [List.foldl_cons, if_neg h1, if_neg h2, ih]
            constructor
            · rintro (hv | ⟨e', he', hc⟩)
              · exact Or.inl hv
              · exact Or.inr ⟨e', List.mem_cons_of_mem _ he', hc⟩
            · rintro (hv | ⟨e', he', hc⟩)
              · exact Or.inl hv
              · rcases List.mem_cons.mp he' with rfl | he'
                · rcases hc with ⟨hfrom, hto⟩ | ⟨hb, hto, hfrom⟩
                  · exact absurd hfrom h1
                  · exact absurd ⟨hb, hto⟩ h2
                · exact Or.inr ⟨e', he', hc⟩
  simpa [get_neighbors_edges] using main g.edges []

/-- Nodup is preserved by the `node.edges` pass. -/
theorem dedup_fold_nodup (l : List String) :
    ∀ acc : List String, acc.Nodup →
      (l.foldl (fun acc e => if e ∈ acc then acc else acc ++ [e]) acc).Nodup := by
  induction l with
  | nil => intro acc h; simpa using h
  | cons e rest ih =>
      intro acc h
      by_cases he : e ∈ acc
      · simpa [he] using ih acc h
      · have : (acc ++ [e]).Nodup := by
          simp [List.nodup_append, h, List.disjoint_singleton, he]
        simpa [he] using ih (acc ++ [e]) this

/-- Membership through the `node.edges` pass. -/
theorem dedup_fold_mem (v : String) (l : List String) :
    ∀ acc : List String,
      (v ∈ l.foldl (fun acc e => if e ∈ acc then acc else acc ++ [e]) acc ↔
        v ∈ acc ∨ v ∈ l) := by
  induction l with
  | nil => simp
  | cons e rest ih =>
      intro acc
      by_cases he : e ∈ acc
      · rw [List.foldl_cons, if_pos he, ih acc]
        constructor
        · rintro (hv | hv)
          · exact Or.inl hv
          · exact Or.inr (List.mem_cons_of_mem _ hv)
        · rintro (hv | hv)
          · exact Or.inl hv
          · rcases List.mem_cons.mp hv with rfl | hv
            · exact Or.inl he
            · exact Or.inr hv
      · rw [List.foldl_cons, if_neg he, ih (acc ++ [e])]
        simp only [List.mem_append, List.mem_singleton, List.mem_cons]
        tauto

/-- C7 amended: `get_neighbors` honours both transition representations —
membership in its result is exactly "some explicit edge gives the transition
(including the reverse of a bidirectional edge) or the node's own `edges`
list contains it" — and the node-list pass adds each identifier at most
once, so the result is duplicate-free whenever the explicit-edge pass alone
is (duplicate explicit edges, however, do produce duplicates, see the
counterexample). -/
theorem C7_amended (g : AppGraph) (u : String) :
    ((get_neighbors_edges g u).Nodup → (get_neighbors g u).Nodup) ∧
    (∀ v, v ∈ get_neighbors g u ↔
      ((∃ e ∈ g.edges, (e.from_node = u ∧ e.to_node = v) ∨
          (e.bidirectional ∧ e.to_node = u ∧ e.from_node = v)) ∨
       (∃ nd, afind g.nodes u = some nd ∧ v ∈ nd.edges))) := by
  constructor
  · intro hnodup
    unfold get_neighbors
    cases hnode : afind g.nodes u with
    | none => simpa using hnodup
    | some nd => exact dedup_fold_nodup nd.edges _ hnodup
  · intro v
    unfold get_neighbors
    cases hnode : afind g.nodes u with
    | none =>
        simp only [hnode]
        rw [mem_get_neighbors_edges]
        constructor
        · exact Or.inl
        · rintro (h | ⟨nd, hnd, _⟩)
          · exact h
          · exact absurd hnd (by simp [hnode])
    | some nd =>
        simp only [hnode]
        rw [dedup_fold_mem, mem_get_neighbors_edges]
        constructor
        · rintro (h | h)
          · exact Or.inl h
          · exact Or.inr ⟨nd, rfl, h⟩
        · rintro (h | ⟨nd', hnd', h⟩)
          · exact Or.inl h
          · have hh : nd = nd' := Option.some.inj hnd'
            subst hh
            exact Or.inr h

/-- C7 witness: the amended theorem applied to a concrete graph exercising
an explicit edge, a reversed bidirectional edge, and the node's own list. -/
theorem C7_witness :
    (get_neighbors_edges c7WitnessGraph "u").Nodup ∧
    (get_neighbors c7WitnessGraph "u").Nodup ∧
    "x" ∈ get_neighbors c7WitnessGraph "u" :=
  ⟨by decide, (C7_amended c7WitnessGraph "u").1 (by decide),
   ((C7_amended c7WitnessGraph "u").2 "x").mpr (by decide)⟩

/-! ### Claim C3: divergence signal of the execution monitor -/

/-- C3 counterexample. On a failure report at step 2 with diverging screen
`"error_dialog"`, the handler emits exactly one `plan_error` and keeps the
plan, but the message's payload (`stepIndex`, `error`, `action`) does *not*
contain the diverging screen anywhere. -/
theorem C3_counterexample :
    handle_action_result c3State c3Msg = some ([c3ErrMsg], c3State) ∧
    ∀ kv ∈ c3ErrMsg.payload, kv.2 ≠ PVal.s "error_dialog" := by
  refine ⟨by decide, by decide⟩

/-- C3 amended: for every state holding a plan for the request and every
failure report at a valid step whose (non-empty) resulting screen differs
from that step's expected screen, the handler emits exactly one outbound
message — a `plan_error` carrying the step index, the raw error text and a
`retry` action hint (but not the diverging screen) — and leaves the whole
state, in particular the active-plan table, unchanged. -/
theorem C3_amended (st : BankState) (reqId : String) (p : ExecutionPlan)
    (idx : Nat) (ns err : String)
    (hplan : afind st.active_plans reqId = some p)
    (hidx : idx < p.steps.length)
    (hns : ns ≠ "")
    (hdiv : ns ≠ (p.steps.get ⟨idx, hidx⟩).expected_screen) :
    handle_action_result st
        { requestId := reqId, stepIndex := (idx : Int), success := false,
          newScreenFingerprint := ns, error := err } =
      some ([{ type := "plan_error", requestId := reqId,
               payload := [("stepIndex", .n idx), ("error", .s err),
                           ("action", .s "retry")] }], st) := by
  have hlt : (idx : Int) < (p.steps.length : Int) := by exact_mod_cast hidx
  have hget : pyGet p.steps (idx : Int) = some (p.steps.get ⟨idx, hidx⟩) := by
    simp [pyGet, List.get?_eq_get hidx]
  simp [handle_action_result, hplan, hlt, hget, hns, hdiv]
  simpa [List.get_eq_getElem] using hdiv

/-- C3 witness: the amended theorem at the concrete scenario input. -/
theorem C3_witness :
    (2 : Nat) < c3Plan.steps.length ∧
    handle_action_result c3State c3Msg = some ([c3ErrMsg], c3State) :=
  ⟨by decide,
   C3_amended c3State "req-1" c3Plan 2 "error_dialog" "tap failed"
     (by decide) (by decide) (by decide) (by decide)⟩

/-! ### Claim C10: invariants of the checkpoint resolver -/

/-- The dedup loop only ever appends to its output accumulator. -/
theorem dedupLoop_append (l : List String) :
    ∀ seen out, ∃ t, dedupLoop l seen out = out ++ t := by
  induction l with
  | nil => intro seen out; exact ⟨[], by simp [dedupLoop]⟩
  | cons cp rest ih =>
      intro seen out
      by_cases h : cp ∉ seen ∨ cp = "home"
      · obtain ⟨t, ht⟩ := ih (seen ++ [cp]) (out ++ [cp])
        refine ⟨[cp] ++ t, ?_⟩
        rw [dedupLoop, if_pos h, ht, List.append_assoc]
      · obtain ⟨t, ht⟩ := ih seen out
        refine ⟨t, ?_⟩
        rw [dedupLoop, if_neg h, ht]

/-- The dedup pass keeps the first element in place. -/
theorem dedup_keep_home_head (x : String) (l : List String) :
    (dedup_keep_home (x :: l)).head? = some x := by
  obtain ⟨t, ht⟩ := dedupLoop_append l [x] [x]
  have hcond : x ∉ ([] : List String) ∨ x = "home" := Or.inl (by simp)
  rw [dedup_keep_home, dedupLoop, if_pos hcond]
  simpa using congrArg List.head? ht

/-- Any identifier other than the hub `"home"` survives the dedup loop at
most once. -/
theorem dedupLoop_count (x : String) (hx : x ≠ "home") (l : List String) :
    ∀ seen out, (x ∉ seen → out.count x = 0) → out.count x ≤ 1 →
      (dedupLoop l seen out).count x ≤ 1 := by
  induction l with
  | nil => intro seen out _ h2; simpa [dedupLoop] using h2
  | cons cp rest ih =>
      intro seen out h1 h2
      by_cases h : cp ∉ seen ∨ cp = "home"
      · rw [dedupLoop, if_pos h]
        apply ih
        · intro hxs
          have hxseen : x ∉ seen := fun hc => hxs (List.mem_append_left _ hc)
          have hxcp : x ≠ cp := by
            intro hcontra
            exact hxs (List.mem_append_right _ (by simp [hcontra]))
          have hone : List.count x [cp] = 0 := by
            simp [List.count_eq_zero, hxcp]
          simp [List.count_append, h1 hxseen, hone]
        · by_cases hcp : cp = x
          · subst hcp
            have hcpseen : cp ∉ seen := h.resolve_right hx
            simp [List.count_append, h1 hcpseen]
          · have hone : List.count x [cp] = 0 := by
              simp [List.count_eq_zero, Ne.symm hcp]
            simpa [List.count_append, hone] using h2
      · rw [dedupLoop, if_neg h]
        exact ih seen out h1 h2

/-- Every value stored in an association list is among its values. -/
theorem afind_mem_values {κ α : Type} [DecidableEq κ] (m : List (κ × α))
    (k : κ) (v : α) (h : afind m k = some v) : v ∈ m.map Prod.snd := by
  induction m with
  | nil => simp [afind] at h
  | cons p rest ih =>
      rw [afind] at h
      by_cases hk : p.1 = k
      · rw [if_pos hk] at h
        cases h
        simp
      · rw [if_neg hk] at h
        exact List.mem_cons_of_mem _ (ih h)

/-- Every entry of the static checkpoint table is non-empty. -/
theorem intent_checkpoints_ne_nil (k : String) (cps : List String)
    (h : afind INTENT_CHECKPOINTS k = some cps) : cps ≠ [] := by
  have hmem := afind_mem_values _ _ _ h
  simp only [INTENT_CHECKPOINTS, List.map_cons, List.map_nil,
    List.mem_cons, List.not_mem_nil, or_false] at hmem
  rcases hmem with rfl | rfl | rfl | rfl | rfl | rfl <;> simp

/-- The invariants of the post-lookup tail of `_resolve_checkpoints`,
stated over an arbitrary table-lookup result. -/
theorem resolve_shape (cps : List String) (cs : String) :
    (if cps = [] then [cs]
     else dedup_keep_home
       (if cps.head? ≠ some cs then cs :: cps else cps)) ≠ [] ∧
    (if cps = [] then [cs]
     else dedup_keep_home
       (if cps.head? ≠ some cs then cs :: cps else cps)).head? = some cs ∧
    ∀ x, x ≠ "home" →
      (if cps = [] then [cs]
       else dedup_keep_home
         (if cps.head? ≠ some cs then cs :: cps else cps)).count x ≤ 1 := by
  by_cases hempty : cps = []
  · simp only [if_pos hempty]
    refine ⟨by simp, by simp, ?_⟩
    intro x _
    exact le_trans (List.count_le_length x [cs]) (by simp)
  · simp only [if_neg hempty]
    obtain ⟨c0, tail, hct⟩ := List.exists_cons_of_ne_nil hempty
    subst hct
    by_cases hhead : (c0 :: tail).head? ≠ some cs
    · simp only [if_pos hhead]
      have hh := dedup_keep_home_head cs (c0 :: tail)
      refine ⟨?_, hh, ?_⟩
      · intro hnil
        rw [hnil] at hh
        simp at hh
      · intro x hx
        exact dedupLoop_count x hx _ [] [] (by simp) (by simp)
    · simp only [if_neg hhead]
      push_neg at hhead
      have hc0 : c0 = cs := by simpa using hhead
      subst hc0
      have hh := dedup_keep_home_head c0 tail
      refine ⟨?_, hh, ?_⟩
      · intro hnil
        rw [hnil] at hh
        simp at hh
      · intro x hx
        exact dedupLoop_count x hx _ [] [] (by simp) (by simp)

/-- C10: for every intent (also intents absent from the checkpoint table,
and with the variant-key special case) and every current screen, the
resolver returns a non-empty sequence that starts with the current screen
and mentions every identifier other than the hub `"home"` at most once.
(The hypothesis keeps the statement inside the domain where the Python
`params.get("source", "").startswith` call is defined, i.e. `source`, if
present, is a string.) -/
theorem C10_resolver_invariants (intent : Intent) (current_screen : String)
    (_hsrc : ∀ v, afind intent.params "source" = some v →
      ∃ s, v = PVal.s s) :
    resolve_checkpoints intent current_screen ≠ [] ∧
    (resolve_checkpoints intent current_screen).head? = some current_screen ∧
    ∀ x, x ≠ "home" →
      (resolve_checkpoints intent current_screen).count x ≤ 1 := by
  exact resolve_shape
    ((afind INTENT_CHECKPOINTS
      (if intent.name = "send_money" ∧
          (match afind intent.params "source" with
            | some (.s v) => v.startsWith "bolsillo"
            | some _ => false
            | none => false) = true
        then "send_money_from_pocket" else intent.name)).getD [])
    current_screen

/-- C10 witness: the theorem at a concrete intent that exercises the
pocket-source variant key, from a non-`home` current screen. -/
theorem C10_witness :
    resolve_checkpoints c10Intent "transfers" ≠ [] ∧
    (resolve_checkpoints c10Intent "transfers").head? = some "transfers" ∧
    (resolve_checkpoints c10Intent "transfers").count "pockets" ≤ 1 :=
  ⟨(C10_resolver_invariants c10Intent "transfers" (by
      intro v h
      rw [show afind c10Intent.params "source"
            = some (PVal.s "bolsillo_ahorros") from by decide] at h
      exact ⟨"bolsillo_ahorros", (Option.some.inj h).symm⟩)).1,
   (C10_resolver_invariants c10Intent "transfers" (by
      intro v h
      rw [show afind c10Intent.params "source"
            = some (PVal.s "bolsillo_ahorros") from by decide] at h
      exact ⟨"bolsillo_ahorros", (Option.some.inj h).symm⟩)).2.1,
   (C10_resolver_invariants c10Intent "transfers" (by
      intro v h
      rw [show afind c10Intent.params "source"
            = some (PVal.s "bolsillo_ahorros") from by decide] at h
      exact ⟨"bolsillo_ahorros", (Option.some.inj h).symm⟩)).2.2 "pockets"
     (by decide)⟩

/-! ### Claim C6: the path decoder -/

/-- One decode step never removes output, it only appends. -/
theorem decodeFold_prefix (ptn : List (Pos × String)) (path : List Pos) :
    ∀ seq, ∃ t, path.foldl (decodeStep ptn) seq = seq ++ t := by
  induction path with
  | nil => intro seq; exact ⟨[], by simp⟩
  | cons p rest ih =>
      intro seq
      rw [List.foldl_cons]
      cases hfind : afind ptn p with
      | none =>
          obtain ⟨t, ht⟩ := ih seq
          exact ⟨t, by rw [← ht]; simp [decodeStep, hfind]⟩
      | some nid =>
          by_cases hcond : seq = [] ∨ seq.getLast? ≠ some nid
          · obtain ⟨t, ht⟩ := ih (seq ++ [nid])
            refine ⟨[nid] ++ t, ?_⟩
            rw [show decodeStep ptn seq p = seq ++ [nid] by
                  simp [decodeStep, hfind, hcond], ht, List.append_assoc]
          · obtain ⟨t, ht⟩ := ih seq
            refine ⟨t, ?_⟩
            rw [show decodeStep ptn seq p = seq by
                  simp only [decodeStep, hfind]
                  exact if_neg hcond, ht]

/-- The no-consecutive-duplicates invariant of the decode loop. -/
theorem decodeFold_chain (ptn : List (Pos × String)) (path : List Pos) :
    ∀ seq, List.Chain' (· ≠ ·) seq →
      List.Chain' (· ≠ ·) (path.foldl (decodeStep ptn) seq) := by
  induction path with
  | nil => intro seq h; simpa using h
  | cons p rest ih =>
      intro seq h
      rw [List.foldl_cons]
      cases hfind : afind ptn p with
      | none =>
          have hstep : decodeStep ptn seq p = seq := by
            simp [decodeStep, hfind]
          rw [hstep]
          exact ih seq h
      | some nid =>
          by_cases hcond : seq = [] ∨ seq.getLast? ≠ some nid
          · have hstep : decodeStep ptn seq p = seq ++ [nid] := by
              simp [decodeStep, hfind, hcond]
            rw [hstep]
            apply ih
            rw [List.chain'_append]
            refine ⟨h, List.chain'_singleton _, ?_⟩
            intro x hx y hy
            rcases hcond with hnil | hlast
            · subst hnil; simp at hx
            · have hx' : seq.getLast? = some x := hx
              have hy' : y = nid := by simpa using hy.symm
              intro hxy
              exact hlast (by rw [hx', hxy, hy'])
          · have hstep : decodeStep ptn seq p = seq := by
              simp only [decodeStep, hfind]
              exact if_neg hcond
            rw [hstep]
            exact ih seq h

/-- When no cell maps to a node, the decode loop is the identity. -/
theorem decodeFold_none (ptn : List (Pos × String)) (path : List Pos)
    (hnone : ∀ p ∈ path, afind ptn p = none) :
    ∀ seq, path.foldl (decodeStep ptn) seq = seq := by
  induction path with
  | nil => intro seq; simp
  | cons p rest ih =>
      intro seq
      rw [List.foldl_cons,
        show decodeStep ptn seq p = seq by
          simp [decodeStep, hnone p (List.mem_cons_self p rest)]]
      exact ih (fun q hq => hnone q (List.mem_cons_of_mem _ hq)) seq

/-- When every cell maps to a node, the last output entry is the last
cell's node. -/
theorem decodeFold_last (ptn : List (Pos × String)) (path : List Pos)
    (hsome : ∀ p ∈ path, (afind ptn p).isSome) :
    ∀ seq, (path.foldl (decodeStep ptn) seq).getLast?
      = match path.getLast? with
        | none => seq.getLast?
        | some q => afind ptn q := by
  induction path with
  | nil => intro seq; simp
  | cons p rest ih =>
      intro seq
      obtain ⟨nid, hfind⟩ := Option.isSome_iff_exists.mp
        (hsome p (List.mem_cons_self p rest))
      have hlaststep : (decodeStep ptn seq p).getLast? = some nid := by
        by_cases hcond : seq = [] ∨ seq.getLast? ≠ some nid
        · simp [decodeStep, hfind, hcond]
        · have hc2 := hcond
          push_neg at hc2
          simp only [decodeStep, hfind]
          rw [if_neg hcond]
          exact hc2.2
      rw [List.foldl_cons]
      cases rest with
      | nil =>
          simp only [List.foldl_nil, List.getLast?_singleton]
          rw [hlaststep, hfind]
      | cons r rs =>
          have := ih (fun q hq => hsome q (List.mem_cons_of_mem _ hq))
            (decodeStep ptn seq p)
          rw [this]
          cases hrl : (r :: rs).getLast? with
          | none => simp at hrl
          | some q => simp [List.getLast?_cons_cons, hrl, hlaststep]

/-- C6: the decoder's output never contains two consecutive equal entries;
it is empty when no solved cell maps to a node; and when every lookup
succeeds, the first and last output entries are the node identifiers of the
first and last solved cells (for a solver-produced path: the start and
target node identifiers). -/
theorem C6_decode_invariants (hrm_path : List Pos)
    (nps : List (String × Pos)) :
    List.Chain' (· ≠ ·) (decode_hrm_path hrm_path nps) ∧
    ((∀ p ∈ hrm_path, afind (pos_to_node_of nps) p = none) →
      decode_hrm_path hrm_path nps = []) ∧
    ((∀ p ∈ hrm_path, (afind (pos_to_node_of nps) p).isSome) →
      (decode_hrm_path hrm_path nps).head?
          = hrm_path.head?.bind (afind (pos_to_node_of nps)) ∧
      (decode_hrm_path hrm_path nps).getLast?
          = hrm_path.getLast?.bind (afind (pos_to_node_of nps))) := by
  refine ⟨decodeFold_chain _ _ [] (List.chain'_nil), ?_, ?_⟩
  · intro hnone
    exact decodeFold_none _ _ hnone []
  · intro hsome
    constructor
    · cases hpath : hrm_path with
      | nil => simp [decode_hrm_path]
      | cons p rest =>
          obtain ⟨nid, hfind⟩ := Option.isSome_iff_exists.mp
            (hsome p (by rw [hpath]; exact List.mem_cons_self p rest))
          have hstep : decodeStep (pos_to_node_of nps) [] p = [nid] := by
            simp [decodeStep, hfind]
          obtain ⟨t, ht⟩ := decodeFold_prefix (pos_to_node_of nps) rest [nid]
          rw [decode_hrm_path, List.foldl_cons, hstep, ht]
          simp [hfind]
    · have := decodeFold_last (pos_to_node_of nps) hrm_path hsome []
      rw [decode_hrm_path, this]
      cases hlast : hrm_path.getLast? <;> simp

/-- C6 witness: the theorem at a concrete path and node map, exercising
both the all-mapped and the none-mapped hypotheses. -/
theorem C6_witness :
    (∀ p ∈ c6Path, (afind (pos_to_node_of c6Nps) p).isSome) ∧
    (decode_hrm_path c6Path c6Nps).head?
        = c6Path.head?.bind (afind (pos_to_node_of c6Nps)) ∧
    (decode_hrm_path c6Path c6Nps).getLast?
        = c6Path.getLast?.bind (afind (pos_to_node_of c6Nps)) ∧
    (∀ p ∈ c6NonePath, afind (pos_to_node_of c6Nps) p = none) ∧
    decode_hrm_path c6NonePath c6Nps = [] :=
  ⟨by decide,
   ((C6_decode_invariants c6Path c6Nps).2.2 (by decide)).1,
   ((C6_decode_invariants c6Path c6Nps).2.2 (by decide)).2,
   by decide,
   (C6_decode_invariants c6NonePath c6Nps).2.1 (by decide)⟩

/-! ### Grid cell lemmas -/

theorem set_getD_self {α : Type} (l : List α) (i : Nat) (d : α) :
    l.set i (l.getD i d) = l := by
  induction l generalizing i with
  | nil => simp
  | cons x xs ih =>
      cases i with
      | zero => simp [List.getD]
      | succ j => simpa [List.getD] using congrArg (x :: ·) (ih j)

theorem length_setCell (g : Grid) (a b v : Nat) :
    (setCell g a b v).length = g.length := by
  simp [setCell]

theorem rowlen_setCell (g : Grid) (a b v i : Nat) :
    ((setCell g a b v).getD i []).length = (g.getD i []).length := by
  simp only [setCell, List.getD_eq_getElem?_getD, List.getElem?_set]
  by_cases hai : a = i
  · subst hai
    by_cases hlen : a < g.length
    · simp [hlen]
    · have hnone : g[a]? = none :=
        List.getElem?_eq_none (le_of_not_lt hlen)
      simp [hlen, hnone]
  · simp [hai]

theorem getCell_setCell_ne (g : Grid) (a b r c v : Nat)
    (h : a ≠ r ∨ b ≠ c) :
    getCell (setCell g a b v) r c = getCell g r c := by
  simp only [getCell, setCell, List.getD_eq_getElem?_getD]
  rcases h with h | h
  · rw [List.getElem?_set_ne h]
  · rw [List.getElem?_set]
    by_cases har : a = r
    · subst har
      by_cases hlen : a < g.length
      · simp only [show (a = a) = True by simp, if_true, if_pos hlen,
          Option.getD_some]
        rw [List.getElem?_set_ne h]
      · have hnone : g[a]? = none :=
          List.getElem?_eq_none (le_of_not_lt hlen)
        simp [hlen, hnone]
    · simp [har]

theorem getCell_setCell_self (g : Grid) (r c v : Nat)
    (hr : r < g.length) (hc : c < (g.getD r []).length) :
    getCell (setCell g r c v) r c = v := by
  have hc' : c < (g[r]?.getD []).length := by
    rw [← List.getD_eq_getElem?_getD]
    exact hc
  simp only [getCell, setCell, List.getD_eq_getElem?_getD]
  rw [List.getElem?_set_self hr, Option.getD_some,
    List.getElem?_set_self hc', Option.getD_some]

theorem setCell_oob (g : Grid) (r c v : Nat)
    (h : g.length ≤ r ∨ (g.getD r []).length ≤ c) :
    setCell g r c v = g := by
  rcases h with h | h
  · unfold setCell
    exact List.set_eq_of_length_le h
  · unfold setCell
    rw [List.set_eq_of_length_le h]
    exact set_getD_self g r []

/-! ### `setWallToPath` and `traceCells` lemmas (claim C8) -/

theorem swtp_preserve (g : Grid) (a b r c : Nat)
    (h : getCell g r c ≠ WALL) :
    getCell (setWallToPath g a b) r c = getCell g r c := by
  unfold setWallToPath
  by_cases hw : getCell g a b = WALL
  · rw [if_pos hw]
    by_cases hcell : a = r ∧ b = c
    · exact absurd (hcell.1 ▸ hcell.2 ▸ hw) h
    · exact getCell_setCell_ne g a b r c PATH (by tauto)
  · rw [if_neg hw]

theorem swtp_length (g : Grid) (a b : Nat) :
    (setWallToPath g a b).length = g.length := by
  unfold setWallToPath
  split <;> simp [length_setCell]

theorem swtp_rowlen (g : Grid) (a b i : Nat) :
    ((setWallToPath g a b).getD i []).length = (g.getD i []).length := by
  unfold setWallToPath
  split
  · exact rowlen_setCell g a b PATH i
  · rfl

theorem swtp_dichotomy (g : Grid) (a b r c : Nat) :
    getCell (setWallToPath g a b) r c = getCell g r c ∨
      (getCell g r c = WALL ∧ getCell (setWallToPath g a b) r c = PATH) := by
  by_cases hz : getCell g r c = WALL
  · unfold setWallToPath
    by_cases hw : getCell g a b = WALL
    · rw [if_pos hw]
      by_cases hcell : a = r ∧ b = c
      · obtain ⟨rfl, rfl⟩ := hcell
        by_cases hb : a < g.length ∧ b < (g.getD a []).length
        · exact Or.inr ⟨hz, getCell_setCell_self g a b PATH hb.1 hb.2⟩
        · rw [setCell_oob g a b PATH (by
            rcases not_and_or.mp hb with hh | hh
            · exact Or.inl (le_of_not_lt hh)
            · exact Or.inr (le_of_not_lt hh))]
          exact Or.inl rfl
      · exact Or.inl (getCell_setCell_ne g a b r c PATH (by tauto))
    · exact Or.inl (by rw [if_neg hw])
  · exact Or.inl (swtp_preserve g a b r c hz)

theorem traceCells_preserve (cells : List Pos) :
    ∀ g r c, getCell g r c ≠ WALL →
      getCell (traceCells g cells) r c = getCell g r c := by
  induction cells with
  | nil => intro g r c _; rfl
  | cons p rest ih =>
      intro g r c h
      have h1 := swtp_preserve g p.1 p.2 r c h
      have h2 := ih (setWallToPath g p.1 p.2) r c (by rw [h1]; exact h)
      calc getCell (traceCells g (p :: rest)) r c
          = getCell (traceCells (setWallToPath g p.1 p.2) rest) r c := rfl
        _ = getCell (setWallToPath g p.1 p.2) r c := h2
        _ = getCell g r c := h1

theorem traceCells_dichotomy (cells : List Pos) :
    ∀ g r c, getCell (traceCells g cells) r c = getCell g r c ∨
      (getCell g r c = WALL ∧ getCell (traceCells g cells) r c = PATH) := by
  induction cells with
  | nil => intro g r c; exact Or.inl rfl
  | cons p rest ih =>
      intro g r c
      have hstep := swtp_dichotomy g p.1 p.2 r c
      have hrec := ih (setWallToPath g p.1 p.2) r c
      have heq : traceCells g (p :: rest)
          = traceCells (setWallToPath g p.1 p.2) rest := rfl
      rw [heq]
      rcases hstep with hs | ⟨hz, hone⟩
      · rcases hrec with hr | ⟨hz', hone'⟩
        · exact Or.inl (hr.trans hs)
        · exact Or.inr ⟨hs ▸ hz', hone'⟩
      · rcases hrec with hr | ⟨hz', hone'⟩
        · exact Or.inr ⟨hz, hr.trans hone⟩
        · rw [hone] at hz'
          simp [PATH, WALL] at hz'

theorem traceCells_length (cells : List Pos) :
    ∀ g, (traceCells g cells).length = g.length := by
  induction cells with
  | nil => intro g; rfl
  | cons p rest ih =>
      intro g
      calc (traceCells g (p :: rest)).length
          = (traceCells (setWallToPath g p.1 p.2) rest).length := rfl
        _ = (setWallToPath g p.1 p.2).length := ih _
        _ = g.length := swtp_length g p.1 p.2

theorem traceCells_rowlen (cells : List Pos) :
    ∀ g i, ((traceCells g cells).getD i []).length
      = (g.getD i []).length := by
  induction cells with
  | nil => intro g i; rfl
  | cons p rest ih =>
      intro g i
      calc ((traceCells g (p :: rest)).getD i []).length
          = ((traceCells (setWallToPath g p.1 p.2) rest).getD i []).length := rfl
        _ = ((setWallToPath g p.1 p.2).getD i []).length := ih _ i
        _ = ((g.getD i []).length) := swtp_rowlen g p.1 p.2 i

/-- A cell is "stable" when re-tracing it cannot change the grid: its value
is already non-`WALL`, or it lies outside the grid. -/
theorem swtp_of_stable (g : Grid) (p : Pos)
    (h : getCell g p.1 p.2 ≠ WALL ∨
      g.length ≤ p.1 ∨ (g.getD p.1 []).length ≤ p.2) :
    setWallToPath g p.1 p.2 = g := by
  rcases h with h | h
  · unfold setWallToPath
    rw [if_neg h]
  · unfold setWallToPath
    split
    · exact setCell_oob g p.1 p.2 PATH h
    · rfl

theorem stable_persist_swtp (g : Grid) (p : Pos) (a b : Nat)
    (h : getCell g p.1 p.2 ≠ WALL ∨
      g.length ≤ p.1 ∨ (g.getD p.1 []).length ≤ p.2) :
    getCell (setWallToPath g a b) p.1 p.2 ≠ WALL ∨
      (setWallToPath g a b).length ≤ p.1 ∨
      ((setWallToPath g a b).getD p.1 []).length ≤ p.2 := by
  rcases h with h | h | h
  · exact Or.inl (by rw [swtp_preserve g a b p.1 p.2 h]; exact h)
  · exact Or.inr (Or.inl (by rw [swtp_length]; exact h))
  · exact Or.inr (Or.inr (by rw [swtp_rowlen]; exact h))

theorem stable_persist_traceCells (cells : List Pos) :
    ∀ g (p : Pos),
      (getCell g p.1 p.2 ≠ WALL ∨
        g.length ≤ p.1 ∨ (g.getD p.1 []).length ≤ p.2) →
      (getCell (traceCells g cells) p.1 p.2 ≠ WALL ∨
        (traceCells g cells).length ≤ p.1 ∨
        ((traceCells g cells).getD p.1 []).length ≤ p.2) := by
  induction cells with
  | nil => intro g p h; exact h
  | cons q rest ih =>
      intro g p h
      exact ih (setWallToPath g q.1 q.2) p (stable_persist_swtp g p q.1 q.2 h)

theorem traceCells_establishes (cells : List Pos) :
    ∀ g, ∀ p ∈ cells,
      getCell (traceCells g cells) p.1 p.2 ≠ WALL ∨
      (traceCells g cells).length ≤ p.1 ∨
      ((traceCells g cells).getD p.1 []).length ≤ p.2 := by
  induction cells with
  | nil => intro g p hp; simp at hp
  | cons q rest ih =>
      intro g p hp
      rcases List.mem_cons.mp hp with rfl | hp
      · have hstep : getCell (setWallToPath g p.1 p.2) p.1 p.2 ≠ WALL ∨
            (setWallToPath g p.1 p.2).length ≤ p.1 ∨
            ((setWallToPath g p.1 p.2).getD p.1 []).length ≤ p.2 := by
          by_cases hz : getCell g p.1 p.2 = WALL
          · by_cases hb : p.1 < g.length ∧ p.2 < (g.getD p.1 []).length
            · refine Or.inl ?_
              unfold setWallToPath
              rw [if_pos hz, getCell_setCell_self g p.1 p.2 PATH hb.1 hb.2]
              simp [PATH, WALL]
            · rcases not_and_or.mp hb with hh | hh
              · exact Or.inr (Or.inl (by rw [swtp_length]; exact le_of_not_lt hh))
              · exact Or.inr (Or.inr (by rw [swtp_rowlen]; exact le_of_not_lt hh))
          · exact Or.inl (by rw [swtp_preserve g p.1 p.2 p.1 p.2 hz]; exact hz)
        exact stable_persist_traceCells rest (setWallToPath g p.1 p.2) p hstep
      · exact ih (setWallToPath g q.1 q.2) p hp

theorem traceCells_fixed (cells : List Pos) :
    ∀ g, (∀ p ∈ cells,
      getCell g p.1 p.2 ≠ WALL ∨
        g.length ≤ p.1 ∨ (g.getD p.1 []).length ≤ p.2) →
    traceCells g cells = g := by
  induction cells with
  | nil => intro g _; rfl
  | cons q rest ih =>
      intro g h
      have hq := swtp_of_stable g q (h q (List.mem_cons_self q rest))
      have : traceCells g (q :: rest)
          = traceCells (setWallToPath g q.1 q.2) rest := rfl
      rw [this, hq]
      exact ih g (fun p hp => h p (List.mem_cons_of_mem _ hp))

theorem traceCells_idem (g : Grid) (cells : List Pos) :
    traceCells (traceCells g cells) cells = traceCells g cells :=
  traceCells_fixed cells (traceCells g cells)
    (traceCells_establishes cells g)

/-- `_trace_l_path` is the `setWallToPath` fold over its cell list. -/
theorem trace_l_path_eq (g : Grid) (r1 c1 r2 c2 : Nat) :
    trace_l_path g r1 c1 r2 c2 = traceCells g (lCells r1 c1 r2 c2) := by
  unfold trace_l_path traceCells lCells
  rw [List.foldl_append, List.foldl_map, List.foldl_map]

theorem trace_one_preserve (positions : List (String × Pos))
    (gt : Grid × List (String × String)) (a b : String) (bidi : Bool)
    (r c : Nat) (h : getCell gt.1 r c ≠ WALL) :
    getCell (trace_one positions gt a b bidi).1 r c = getCell gt.1 r c := by
  unfold trace_one
  by_cases hmem : (a, b) ∈ gt.2
  · rw [if_pos hmem]
  · rw [if_neg hmem]
    cases hpa : afind positions a with
    | none => rfl
    | some p1 =>
        cases hpb : afind positions b with
        | none => rfl
        | some p2 =>
            simp only []
            rw [trace_l_path_eq]
            exact traceCells_preserve _ _ r c h

theorem trace_edges_foldl_preserve (positions : List (String × Pos))
    (es : List GraphEdge) (r c : Nat) :
    ∀ gt : Grid × List (String × String), getCell gt.1 r c ≠ WALL →
      getCell (es.foldl
        (fun gt e => trace_one positions gt e.from_node e.to_node
          e.bidirectional) gt).1 r c = getCell gt.1 r c := by
  induction es with
  | nil => intro gt _; rfl
  | cons e rest ih =>
      intro gt h
      have h1 := trace_one_preserve positions gt e.from_node e.to_node
        e.bidirectional r c h
      rw [List.foldl_cons, ih _ (by rw [h1]; exact h), h1]

theorem trace_nodes_inner_preserve (positions : List (String × Pos))
    (nid : String) (nbs : List String) (r c : Nat) :
    ∀ gt : Grid × List (String × String), getCell gt.1 r c ≠ WALL →
      getCell (nbs.foldl
        (fun gt nb => trace_one positions gt nid nb false) gt).1 r c
        = getCell gt.1 r c := by
  induction nbs with
  | nil => intro gt _; rfl
  | cons nb rest ih =>
      intro gt h
      have h1 := trace_one_preserve positions gt nid nb false r c h
      rw [List.foldl_cons, ih _ (by rw [h1]; exact h), h1]

theorem trace_nodes_foldl_preserve (positions : List (String × Pos))
    (nodes : List (String × GraphNode)) (r c : Nat) :
    ∀ gt : Grid × List (String × String), getCell gt.1 r c ≠ WALL →
      getCell (nodes.foldl
        (fun gt p => p.2.edges.foldl
          (fun gt nb => trace_one positions gt p.1 nb false) gt) gt).1 r c
        = getCell gt.1 r c := by
  induction nodes with
  | nil => intro gt _; rfl
  | cons nd rest ih =>
      intro gt h
      have h1 := trace_nodes_inner_preserve positions nd.1 nd.2.edges r c gt h
      rw [List.foldl_cons, ih _ (by rw [h1]; exact h), h1]

/-- C8: edge tracing only overwrites `WALL` cells to `PATH` — every
non-`WALL` cell keeps its value through `_trace_l_path` and through the
whole `_trace_edges` pass, any changed cell went from `WALL` to `PATH` —
and re-tracing the same L-shaped corridor a second time leaves the grid
identical. -/
theorem C8_trace_wall_only (g : Grid) (r1 c1 r2 c2 : Nat) :
    (∀ r c, getCell g r c ≠ WALL →
      getCell (trace_l_path g r1 c1 r2 c2) r c = getCell g r c) ∧
    (∀ r c, getCell (trace_l_path g r1 c1 r2 c2) r c = getCell g r c ∨
      (getCell g r c = WALL ∧
        getCell (trace_l_path g r1 c1 r2 c2) r c = PATH)) ∧
    trace_l_path (trace_l_path g r1 c1 r2 c2) r1 c1 r2 c2
      = trace_l_path g r1 c1 r2 c2 ∧
    ∀ (graph : AppGraph) (positions : List (String × Pos)) (r c : Nat),
      getCell g r c ≠ WALL →
      getCell (trace_edges graph positions g) r c = getCell g r c := by
  refine ⟨?_, ?_, ?_, ?_⟩
  · intro r c h
    rw [trace_l_path_eq]
    exact traceCells_preserve _ _ r c h
  · intro r c
    rw [trace_l_path_eq]
    exact traceCells_dichotomy _ _ r c
  · rw [trace_l_path_eq, trace_l_path_eq]
    exact traceCells_idem g (lCells r1 c1 r2 c2)
  · intro graph positions r c h
    unfold trace_edges
    exact (trace_nodes_foldl_preserve positions graph.nodes r c _
      (by rw [trace_edges_foldl_preserve positions graph.edges r c (g, []) h]
          exact h)).trans
      (trace_edges_foldl_preserve positions graph.edges r c (g, []) h)

/-- C8 witness: the theorem at a concrete grid, corridor and graph. -/
theorem C8_witness :
    getCell [[5, 0], [0, 0]] 0 0 ≠ WALL ∧
    getCell (trace_l_path [[5, 0], [0, 0]] 0 0 1 1) 0 0
      = getCell [[5, 0], [0, 0]] 0 0 ∧
    trace_l_path (trace_l_path [[5, 0], [0, 0]] 0 0 1 1) 0 0 1 1
      = trace_l_path [[5, 0], [0, 0]] 0 0 1 1 ∧
    getCell (trace_edges c1Graph (layout_nodes c1Graph).node_positions
      [[5, 0], [0, 0]]) 0 0 = getCell [[5, 0], [0, 0]] 0 0 :=
  ⟨by decide,
   (C8_trace_wall_only [[5, 0], [0, 0]] 0 0 1 1).1 0 0 (by decide),
   (C8_trace_wall_only [[5, 0], [0, 0]] 0 0 1 1).2.2.1,
   (C8_trace_wall_only [[5, 0], [0, 0]] 0 0 1 1).2.2.2 c1Graph
     (layout_nodes c1Graph).node_positions 0 0 (by decide)⟩

/-! ### Claim C2: counting `START` and `TARGET` cells -/

/-- Setting an in-bounds element changes the element count by the swap of
old and new value (in additive form, avoiding truncated subtraction). -/
theorem count_list_set (row : List Nat) :
    ∀ (c : Nat), c < row.length → ∀ (w v : Nat),
    (row.set c w).count v + (if row.getD c WALL = v then 1 else 0)
      = row.count v + (if w = v then 1 else 0) := by
  induction row with
  | nil => intro c hc; simp at hc
  | cons x xs ih =>
      intro c hc w v
      cases c with
      | zero =>
          simp only [List.set, List.getD]
          rw [List.count_cons, List.count_cons]
          by_cases h1 : x = v <;> by_cases h2 : w = v <;>
            simp [h1, h2]
      | succ c' =>
          have hc' : c' < xs.length := by simpa using hc
          have hrec := ih c' hc' w v
          simp only [List.set, List.getD]
          rw [List.count_cons, List.count_cons]
          by_cases h1 : xs.getD c' WALL = v <;> by_cases h2 : w = v <;>
            simp [h1, h2] at hrec ⊢ <;> omega

/-- The grid version of `count_list_set`, on the flattened grid. -/
theorem count_flatten_setCell (g : Grid) :
    ∀ (r : Nat), r < g.length → ∀ (c : Nat), c < (g.getD r []).length →
    ∀ (w v : Nat),
    (setCell g r c w).flatten.count v + (if getCell g r c = v then 1 else 0)
      = g.flatten.count v + (if w = v then 1 else 0) := by
  induction g with
  | nil => intro r hr; simp at hr
  | cons row rows ih =>
      intro r hr c hc w v
      cases r with
      | zero =>
          have hstep : setCell (row :: rows) 0 c w = (row.set c w) :: rows := by
            simp [setCell, List.getD]
          rw [hstep]
          simp only [List.flatten_cons, List.count_append]
          have hc0 : c < row.length := by simpa [List.getD] using hc
          have := count_list_set row c hc0 w v
          have hcell : getCell (row :: rows) 0 c = row.getD c WALL := by
            simp [getCell, List.getD]
          rw [hcell]
          omega
      | succ r' =>
          have hstep : setCell (row :: rows) (r' + 1) c w
              = row :: setCell rows r' c w := by
            simp [setCell, List.getD]
          rw [hstep]
          simp only [List.flatten_cons, List.count_append]
          have hr' : r' < rows.length := by simpa using hr
          have hc' : c < (rows.getD r' []).length := by
            simpa [List.getD] using hc
          have := ih r' hr' c hc' w v
          have hcell : getCell (row :: rows) (r' + 1) c
              = getCell rows r' c := by
            simp [getCell, List.getD]
          rw [hcell]
          omega

/-- In a grid all of whose cells are at most `PATH`, no cell counts as
`START` or `TARGET`. -/
theorem count_flatten_le_one (g : Grid)
    (hle : ∀ row ∈ g, ∀ x ∈ row, x ≤ 1) (v : Nat) (hv : 1 < v) :
    g.flatten.count v = 0 := by
  rw [List.count_eq_zero]
  intro hmem
  obtain ⟨row, hrow, hx⟩ := List.mem_flatten.mp hmem
  exact absurd (hle row hrow v hx) (not_le.mpr hv)

theorem getCell_le_of_cellsLE (g : Grid)
    (hle : ∀ row ∈ g, ∀ x ∈ row, x ≤ 1) (r c : Nat)
    (hr : r < g.length) (hc : c < (g.getD r []).length) :
    getCell g r c ≤ 1 := by
  have hrowmem : g.getD r [] ∈ g := by
    rw [List.getD_eq_getElem _ _ hr]
    exact List.getElem_mem hr
  have : getCell g r c = (g.getD r []).getD c WALL := rfl
  rw [this, List.getD_eq_getElem _ _ hc]
  exact hle _ hrowmem _ (List.getElem_mem hc)

/-! ### Grid invariants through the compile pipeline -/

theorem gridInv_refl (g : Grid) : GridInv g g :=
  ⟨rfl, fun _ => rfl, fun h => h⟩

theorem gridInv_trans {g0 g1 g2 : Grid} (h1 : GridInv g0 g1)
    (h2 : GridInv g1 g2) : GridInv g0 g2 :=
  ⟨h2.1.trans h1.1, fun i => (h2.2.1 i).trans (h1.2.1 i),
   fun h => h2.2.2 (h1.2.2 h)⟩

theorem cellsLE_setCell (g : Grid) (r c v : Nat) (hv : v ≤ 1)
    (hle : ∀ row ∈ g, ∀ x ∈ row, x ≤ 1) :
    ∀ row ∈ setCell g r c v, ∀ x ∈ row, x ≤ 1 := by
  intro row hrow x hx
  rcases List.mem_or_eq_of_mem_set hrow with hrow | rfl
  · exact hle row hrow x hx
  · rcases List.mem_or_eq_of_mem_set hx with hx | rfl
    · by_cases hrlen : r < g.length
      · refine hle _ ?_ x hx
        rw [List.getD_eq_getElem _ _ hrlen]
        exact List.getElem_mem hrlen
      · rw [List.getD_eq_getElem?_getD,
          List.getElem?_eq_none (le_of_not_lt hrlen)] at hx
        simp at hx
    · exact hv

theorem gridInv_setCell (g : Grid) (r c v : Nat) (hv : v ≤ 1) :
    GridInv g (setCell g r c v) :=
  ⟨length_setCell g r c v, fun i => rowlen_setCell g r c v i,
   fun h => cellsLE_setCell g r c v hv h⟩

theorem gridInv_swtp (g : Grid) (a b : Nat) :
    GridInv g (setWallToPath g a b) := by
  unfold setWallToPath
  split
  · exact gridInv_setCell g a b PATH (by simp [PATH])
  · exact gridInv_refl g

theorem gridInv_traceCells (cells : List Pos) :
    ∀ g, GridInv g (traceCells g cells) := by
  induction cells with
  | nil => intro g; exact gridInv_refl g
  | cons p rest ih =>
      intro g
      exact gridInv_trans (gridInv_swtp g p.1 p.2)
        (ih (setWallToPath g p.1 p.2))

theorem gridInv_trace_one (positions : List (String × Pos))
    (gt : Grid × List (String × String)) (a b : String) (bidi : Bool) :
    GridInv gt.1 (trace_one positions gt a b bidi).1 := by
  unfold trace_one
  by_cases hmem : (a, b) ∈ gt.2
  · rw [if_pos hmem]; exact gridInv_refl _
  · rw [if_neg hmem]
    cases hpa : afind positions a with
    | none => exact gridInv_refl _
    | some p1 =>
        cases hpb : afind positions b with
        | none => exact gridInv_refl _
        | some p2 =>
            simp only []
            rw [trace_l_path_eq]
            exact gridInv_traceCells _ _

theorem gridInv_trace_edges_fold (positions : List (String × Pos))
    (es : List GraphEdge) :
    ∀ gt : Grid × List (String × String),
      GridInv gt.1 (es.foldl
        (fun gt e => trace_one positions gt e.from_node e.to_node
          e.bidirectional) gt).1 := by
  induction es with
  | nil => intro gt; exact gridInv_refl _
  | cons e rest ih =>
      intro gt
      exact gridInv_trans (gridInv_trace_one positions gt _ _ _) (ih _)

theorem gridInv_trace_nodes_inner (positions : List (String × Pos))
    (nid : String) (nbs : List String) :
    ∀ gt : Grid × List (String × String),
      GridInv gt.1 (nbs.foldl
        (fun gt nb => trace_one positions gt nid nb false) gt).1 := by
  induction nbs with
  | nil => intro gt; exact gridInv_refl _
  | cons nb rest ih =>
      intro gt
      exact gridInv_trans (gridInv_trace_one positions gt _ _ _) (ih _)

theorem gridInv_trace_nodes_fold (positions : List (String × Pos))
    (nodes : List (String × GraphNode)) :
    ∀ gt : Grid × List (String × String),
      GridInv gt.1 (nodes.foldl
        (fun gt p => p.2.edges.foldl
          (fun gt nb => trace_one positions gt p.1 nb false) gt) gt).1 := by
  induction nodes with
  | nil => intro gt; exact gridInv_refl _
  | cons nd rest ih =>
      intro gt
      exact gridInv_trans (gridInv_trace_nodes_inner positions nd.1 nd.2.edges gt)
        (ih _)

theorem gridInv_trace_edges (g : AppGraph) (positions : List (String × Pos))
    (grid : Grid) : GridInv grid (trace_edges g positions grid) := by
  unfold trace_edges
  exact gridInv_trans (gridInv_trace_edges_fold positions g.edges (grid, []))
    (gridInv_trace_nodes_fold positions g.nodes _)

theorem gridInv_place_fold (cols rs cs : Nat) (l : List (Nat × String)) :
    ∀ st : LayoutState,
      GridInv st.grid
        ((l.foldl (fun st p => place_node cols rs cs st p.1 p.2) st).grid) := by
  induction l with
  | nil => intro st; exact gridInv_refl _
  | cons p rest ih =>
      intro st
      refine gridInv_trans ?_ (ih (place_node cols rs cs st p.1 p.2))
      unfold place_node
      exact gridInv_setCell st.grid _ _ PATH (by simp [PATH])

/-- `layout_nodes` is either the empty state or a placement fold from it. -/
theorem layout_nodes_eq (g : AppGraph) :
    layout_nodes g = LayoutState.empty ∨
    ∃ (cols rs cs : Nat) (l : List (Nat × String)),
      layout_nodes g = l.foldl
        (fun st p => place_node cols rs cs st p.1 p.2) LayoutState.empty := by
  by_cases h : g.nodes = []
  · left
    unfold layout_nodes
    rw [if_pos h]
  · right
    refine ⟨Nat.max 1 (ceilSqrt (g.nodes.map Prod.fst).length),
      (if 1 < Nat.max 1 (ceilDiv (g.nodes.map Prod.fst).length
            (Nat.max 1 (ceilSqrt (g.nodes.map Prod.fst).length))) then
        Nat.min (Nat.max NODE_SPACING ((GRID_SIZE - 2 * BORDER) /
            Nat.max (Nat.max 1 (ceilDiv (g.nodes.map Prod.fst).length
              (Nat.max 1 (ceilSqrt (g.nodes.map Prod.fst).length)))) 1))
          (((GRID_SIZE - 2 * BORDER) - 1) /
            Nat.max (Nat.max 1 (ceilDiv (g.nodes.map Prod.fst).length
              (Nat.max 1 (ceilSqrt (g.nodes.map Prod.fst).length))) - 1) 1)
      else (GRID_SIZE - 2 * BORDER) / 2),
      (if 1 < Nat.max 1 (ceilSqrt (g.nodes.map Prod.fst).length) then
        Nat.min (Nat.max NODE_SPACING ((GRID_SIZE - 2 * BORDER) /
            Nat.max (Nat.max 1 (ceilSqrt (g.nodes.map Prod.fst).length)) 1))
          (((GRID_SIZE - 2 * BORDER) - 1) /
            Nat.max (Nat.max 1 (ceilSqrt (g.nodes.map Prod.fst).length) - 1) 1)
      else (GRID_SIZE - 2 * BORDER) / 2),
      ((g.nodes.map Prod.fst).foldl
        (fun ord nid => if nid ∈ ord then ord else ord ++ [nid])
        (bfs_order g ((g.nodes.map Prod.fst).headD ""))).enum, ?_⟩
    unfold layout_nodes
    rw [if_neg h]

theorem emptyGrid_props :
    emptyGrid.length = 30 ∧
    (∀ i, i < 30 → (emptyGrid.getD i []).length = 30) ∧
    (∀ row ∈ emptyGrid, ∀ x ∈ row, x ≤ 1) := by
  refine ⟨by simp [emptyGrid, GRID_SIZE], ?_, ?_⟩
  · intro i hi
    rw [emptyGrid, GRID_SIZE, List.getD_eq_getElem?_getD,
      List.getElem?_replicate, if_pos hi]
    simp [WALL]
  · intro row hrow x hx
    rw [emptyGrid] at hrow
    rw [List.eq_of_mem_replicate hrow] at hx
    rw [List.eq_of_mem_replicate hx]
    simp [WALL]

/-- The grid produced by layout + tracing is 30×30 with all cells ≤ `PATH`. -/
theorem traced_grid_props (g : AppGraph) :
    (trace_edges g (layout_nodes g).node_positions
        (layout_nodes g).grid).length = 30 ∧
    (∀ i, i < 30 →
      ((trace_edges g (layout_nodes g).node_positions
          (layout_nodes g).grid).getD i []).length = 30) ∧
    (∀ row ∈ trace_edges g (layout_nodes g).node_positions
        (layout_nodes g).grid, ∀ x ∈ row, x ≤ 1) := by
  have hlay : GridInv emptyGrid (layout_nodes g).grid := by
    rcases layout_nodes_eq g with h | ⟨cols, rs, cs, l, h⟩
    · rw [h]; exact gridInv_refl _
    · rw [h]
      exact gridInv_place_fold cols rs cs l LayoutState.empty
  have htr : GridInv emptyGrid
      (trace_edges g (layout_nodes g).node_positions (layout_nodes g).grid) :=
    gridInv_trans hlay
      (gridInv_trace_edges g (layout_nodes g).node_positions
        (layout_nodes g).grid)
  obtain ⟨he1, he2, he3⟩ := emptyGrid_props
  exact ⟨htr.1.trans he1, fun i hi => (htr.2.1 i).trans (he2 i hi),
    htr.2.2 he3⟩

/-! ### Position bounds from the layout -/

theorem probe_bounds (m : List (Pos × String)) :
    ∀ (fuel r c : Nat), r ≤ 28 → 2 ≤ c → c ≤ 28 →
      (probe_position m fuel r c).1 ≤ 29 ∧
      2 ≤ (probe_position m fuel r c).2 ∧
      (probe_position m fuel r c).2 ≤ 28 := by
  intro fuel
  induction fuel with
  | zero =>
      intro r c hr hc2 hc
      exact ⟨le_trans hr (by omega), hc2, hc⟩
  | succ n ih =>
      intro r c hr hc2 hc
      rw [probe_position]
      split
      · have h29 : GRID_SIZE - BORDER = 29 := by simp [GRID_SIZE, BORDER]
        by_cases hcw : GRID_SIZE - BORDER ≤ c + 1
        · rw [if_pos hcw]
          by_cases hrw : GRID_SIZE - BORDER ≤ r + 1
          · rw [if_pos hrw]
            refine ⟨by omega, by simp [BORDER], by simp [BORDER]⟩
          · rw [if_neg hrw]
            rw [h29] at hrw
            exact ih (r + 1) (BORDER + 1) (by omega) (by simp [BORDER])
              (by simp [BORDER])
        · rw [if_neg hcw]
          rw [h29] at hcw
          exact ih r (c + 1) hr (by omega) (by omega)
      · exact ⟨le_trans hr (by omega), hc2, hc⟩

/-- That a binding in an `aset`-updated map is the new one or an old one. -/
theorem afind_aset_cases {κ α : Type} [DecidableEq κ] (m : List (κ × α))
    (k k' : κ) (v v' : α) (h : afind (aset m k v) k' = some v') :
    v' = v ∨ afind m k' = some v' := by
  rw [afind_aset] at h
  by_cases hk : k = k'
  · rw [if_pos hk] at h
    exact Or.inl (Option.some.inj h).symm
  · rw [if_neg hk] at h
    exact Or.inr h

theorem place_fold_pos_bounds (cols rs cs : Nat) (l : List (Nat × String)) :
    ∀ st : LayoutState,
      (∀ n p, afind st.node_positions n = some p →
        p.1 ≤ 29 ∧ 2 ≤ p.2 ∧ p.2 ≤ 28) →
      ∀ n p, afind
        ((l.foldl (fun st p => place_node cols rs cs st p.1 p.2)
          st).node_positions) n = some p →
        p.1 ≤ 29 ∧ 2 ≤ p.2 ∧ p.2 ≤ 28 := by
  induction l with
  | nil => intro st h; exact h
  | cons q rest ih =>
      intro st h
      refine ih (place_node cols rs cs st q.1 q.2) ?_
      intro n p hp
      unfold place_node at hp
      simp only [] at hp
      rcases afind_aset_cases _ _ _ _ _ hp with rfl | hp
      · have hmin : ∀ a b : Nat, Nat.min a b = if a ≤ b then a else b :=
          fun a b => rfl
        apply probe_bounds
        · simp only [GRID_SIZE, BORDER]
          rw [hmin]
          split <;> omega
        · simp only [GRID_SIZE, BORDER]
          rw [hmin]
          split <;> omega
        · simp only [GRID_SIZE, BORDER]
          rw [hmin]
          split <;> omega
      · exact h n p hp

theorem layout_pos_bounds (g : AppGraph) (n : String) (p : Pos)
    (h : afind (layout_nodes g).node_positions n = some p) :
    p.1 ≤ 29 ∧ 2 ≤ p.2 ∧ p.2 ≤ 28 := by
  rcases layout_nodes_eq g with heq | ⟨cols, rs, cs, l, heq⟩
  · rw [heq] at h
    simp [LayoutState.empty, afind] at h
  · rw [heq] at h
    exact place_fold_pos_bounds cols rs cs l LayoutState.empty
      (by intro n' p' hp'; simp [LayoutState.empty, afind] at hp') n p h

/-- C2: whenever both endpoints are placed in the layout, `compile`
succeeds, and the returned grid contains exactly one `TARGET` cell and —
when the two marked cells differ — exactly one `START` cell; when the start
cell and the target cell coincide the `TARGET` overwrite wins and no
`START` cell remains. -/
theorem C2_start_target_cells (g : AppGraph) (s t : String) (sp tp : Pos)
    (hs : afind (layout_nodes g).node_positions s = some sp)
    (ht : afind (layout_nodes g).node_positions t = some tp) :
    ∃ res, compile g s t = Except.ok res ∧
      res.start_pos = sp ∧ res.target_pos = tp ∧
      res.grid.count TARGET = 1 ∧
      (sp ≠ tp → res.grid.count START = 1) ∧
      (sp = tp → res.grid.count START = 0) := by
  obtain ⟨hlen, hrow, hle⟩ := traced_grid_props g
  obtain ⟨hsp1, hsp2a, hsp2b⟩ := layout_pos_bounds g s sp hs
  obtain ⟨htp1, htp2a, htp2b⟩ := layout_pos_bounds g t tp ht
  set B := trace_edges g (layout_nodes g).node_positions
    (layout_nodes g).grid with hB
  have hcompile : compile g s t = Except.ok
      { grid := (setCell (setCell B sp.1 sp.2 START) tp.1 tp.2 TARGET).flatten
        grid_2d := setCell (setCell B sp.1 sp.2 START) tp.1 tp.2 TARGET
        width := GRID_SIZE
        height := GRID_SIZE
        node_positions := (layout_nodes g).node_positions
        position_to_node := (layout_nodes g).position_to_node
        start_pos := sp
        target_pos := tp } := by
    simp only [compile, hs, ht, hB]
  have hr1 : sp.1 < B.length := by rw [hlen]; omega
  have hc1 : sp.2 < (B.getD sp.1 []).length := by
    rw [hrow sp.1 (by omega)]; omega
  have hr2 : tp.1 < (setCell B sp.1 sp.2 START).length := by
    rw [length_setCell, hlen]; omega
  have hc2 : tp.2 < ((setCell B sp.1 sp.2 START).getD tp.1 []).length := by
    rw [rowlen_setCell, hrow tp.1 (by omega)]; omega
  have hgB_sp : getCell B sp.1 sp.2 ≤ 1 := getCell_le_of_cellsLE B hle _ _ hr1 hc1
  have hcnt2B : B.flatten.count START = 0 :=
    count_flatten_le_one B hle START (by simp [START])
  have hcnt3B : B.flatten.count TARGET = 0 :=
    count_flatten_le_one B hle TARGET (by simp [TARGET])
  have heq1 := fun v => count_flatten_setCell B sp.1 hr1 sp.2 hc1 START v
  have hc0 : getCell B sp.1 sp.2 ≠ START := by
    simp only [START]
    omega
  have hcnt2G1 : (setCell B sp.1 sp.2 START).flatten.count START = 1 := by
    have := heq1 START
    rw [if_neg hc0, if_pos rfl, hcnt2B] at this
    omega
  have hc0t : getCell B sp.1 sp.2 ≠ TARGET := by
    simp only [TARGET]
    omega
  have hcnt3G1 : (setCell B sp.1 sp.2 START).flatten.count TARGET = 0 := by
    have := heq1 TARGET
    rw [if_neg hc0t, if_neg (by simp [START, TARGET]), hcnt3B] at this
    omega
  have heq2 := fun v =>
    count_flatten_setCell (setCell B sp.1 sp.2 START) tp.1 hr2 tp.2 hc2
      TARGET v
  refine ⟨_, hcompile, rfl, rfl, ?_, ?_, ?_⟩
  · -- exactly one TARGET
    have hne3 : getCell (setCell B sp.1 sp.2 START) tp.1 tp.2 ≠ TARGET := by
      by_cases hpp : sp = tp
      · rw [← hpp, getCell_setCell_self B sp.1 sp.2 START hr1 hc1]
        simp [START, TARGET]
      · have hcomp : sp.1 ≠ tp.1 ∨ sp.2 ≠ tp.2 := by
          by_contra hc
          push_neg at hc
          exact hpp (Prod.ext_iff.mpr ⟨hc.1, hc.2⟩)
        rw [getCell_setCell_ne B sp.1 sp.2 tp.1 tp.2 START hcomp]
        have := getCell_le_of_cellsLE B hle tp.1 tp.2
          (by rw [hlen]; omega) (by rw [hrow tp.1 (by omega)]; omega)
        simp only [TARGET]
        omega
    have := heq2 TARGET
    rw [if_neg hne3, if_pos rfl, hcnt3G1] at this
    show ((setCell (setCell B sp.1 sp.2 START) tp.1 tp.2
      TARGET).flatten).count TARGET = 1
    omega
  · -- one START when the cells differ
    intro hpp
    have hcomp : sp.1 ≠ tp.1 ∨ sp.2 ≠ tp.2 := by
      by_contra hc
      push_neg at hc
      exact hpp (Prod.ext_iff.mpr ⟨hc.1, hc.2⟩)
    have hne2 : getCell (setCell B sp.1 sp.2 START) tp.1 tp.2 ≠ START := by
      rw [getCell_setCell_ne B sp.1 sp.2 tp.1 tp.2 START hcomp]
      have := getCell_le_of_cellsLE B hle tp.1 tp.2
        (by rw [hlen]; omega) (by rw [hrow tp.1 (by omega)]; omega)
      simp only [START]
      omega
    have := heq2 START
    rw [if_neg hne2, if_neg (by simp [START, TARGET]), hcnt2G1] at this
    show ((setCell (setCell B sp.1 sp.2 START) tp.1 tp.2
      TARGET).flatten).count START = 1
    omega
  · -- no START left when the cells coincide
    intro hpp
    have heq2' := heq2 START
    rw [← hpp, getCell_setCell_self B sp.1 sp.2 START hr1 hc1, if_pos rfl,
      if_neg (by simp [START, TARGET]), hcnt2G1] at heq2'
    show ((setCell (setCell B sp.1 sp.2 START) tp.1 tp.2
      TARGET).flatten).count START = 0
    rw [← hpp]
    omega

/-- C2 witness: the theorem at the scenario graph, on distinct endpoints. -/
theorem C2_witness :
    afind (layout_nodes c1Graph).node_positions "home" = some (2, 2) ∧
    afind (layout_nodes c1Graph).node_positions "confirm" = some (16, 11) ∧
    ∃ res, compile c1Graph "home" "confirm" = Except.ok res ∧
      res.start_pos = (2, 2) ∧ res.target_pos = (16, 11) ∧
      res.grid.count TARGET = 1 ∧
      ((2, 2) ≠ ((16, 11) : Pos) → res.grid.count START = 1) ∧
      ((2, 2) = ((16, 11) : Pos) → res.grid.count START = 0) :=
  ⟨by decide, by decide,
   C2_start_target_cells c1Graph "home" "confirm" (2, 2) (16, 11)
     (by decide) (by decide)⟩

/-! ### C5 — the BFS reference solver

Correctness of `bfs_solve`: helper lemmas about walks, the in-bounds cell
count used as termination measure, single expansion steps, and finally the
invariant-carrying induction over the solver loop. -/

theorem head_append_left {α : Type} (l l' : List α) (h : l ≠ []) :
    (l ++ l').head? = l.head? := by
  cases l with
  | nil => exact absurd rfl h
  | cons a t => rfl

theorem nodup_concat {α : Type} (l : List α) (a : α) (hl : l.Nodup)
    (ha : a ∉ l) : (l ++ [a]).Nodup := by
  induction l with
  | nil => simp
  | cons b t ih =>
      rw [List.cons_append, List.nodup_cons]
      refine ⟨?_, ih (List.nodup_cons.mp hl).2 (fun h => ha (List.mem_cons_of_mem b h))⟩
      intro hb
      rcases List.mem_append.mp hb with h | h
      · exact (List.nodup_cons.mp hl).1 h
      · exact ha (by simp at h; simp [h])

theorem walk_ne_nil {grid : Grid} {width height : Nat} {start c : Pos}
    {ps : List Pos} (h : isWalkTo grid width height start c ps) : ps ≠ [] := by
  intro hnil
  rw [hnil] at h
  exact Option.noConfusion h.1

theorem walk_length_pos {grid : Grid} {width height : Nat} {start c : Pos}
    {ps : List Pos} (h : isWalkTo grid width height start c ps) :
    1 ≤ ps.length :=
  List.length_pos.mpr (walk_ne_nil h)

theorem walk_len_one {grid : Grid} {width height : Nat} {start c : Pos}
    {ps : List Pos} (h : isWalkTo grid width height start c ps)
    (hl : ps.length = 1) : c = start := by
  obtain ⟨a, rfl⟩ := List.length_eq_one.mp hl
  obtain ⟨h1, h2, -⟩ := h
  simp only [List.head?_cons, Option.some.injEq] at h1
  simp only [List.getLast?_singleton, Option.some.injEq] at h2
  rw [← h1, ← h2]

theorem walk_snoc {grid : Grid} {width height : Nat} {start p np : Pos}
    {path : List Pos} (h : isWalkTo grid width height start p path)
    (hstep : walkStep grid width height p np) :
    isWalkTo grid width height start np (path ++ [np]) := by
  obtain ⟨h1, h2, h3⟩ := h
  refine ⟨?_, ?_, ?_⟩
  · rw [head_append_left path [np] (walk_ne_nil ⟨h1, h2, h3⟩), h1]
  · exact List.getLast?_concat path
  · rw [List.chain'_append]
    refine ⟨h3, List.chain'_singleton np, ?_⟩
    intro x hx y hy
    rw [h2] at hx
    simp only [Option.mem_def, Option.some.injEq] at hx
    simp only [List.head?_cons, Option.mem_def, Option.some.injEq] at hy
    rw [← hx, ← hy]
    exact hstep

theorem walk_concat {grid : Grid} {width height : Nat} {start c : Pos}
    {w : List Pos} (h : isWalkTo grid width height start c w)
    (hl : 2 ≤ w.length) :
    ∃ w' b, w = w' ++ [c] ∧ isWalkTo grid width height start b w' ∧
      walkStep grid width height b c := by
  rcases List.eq_nil_or_concat w with rfl | ⟨l, a, rfl⟩
  · exact absurd h.1 (by simp)
  simp only [List.concat_eq_append] at hl h ⊢
  obtain ⟨h1, h2, h3⟩ := h
  rw [List.getLast?_concat] at h2
  have hac : a = c := by injection h2
  rw [hac] at h1 h3 hl
  have hlne : l ≠ [] := by
    intro hnil
    rw [hnil] at hl
    simp at hl
  have hb : ∃ b, l.getLast? = some b := by
    cases hg : l.getLast? with
    | none => exact absurd (List.getLast?_eq_none_iff.mp hg) hlne
    | some b => exact ⟨b, rfl⟩
  obtain ⟨b, hb⟩ := hb
  rw [List.chain'_append] at h3
  refine ⟨l, b, by rw [hac], ⟨?_, hb, h3.1⟩, ?_⟩
  · rw [head_append_left l [c] hlne] at h1
    exact h1
  · exact h3.2.2 b (by rw [hb]; rfl) c rfl

theorem walk_all_visited {grid : Grid} {width height : Nat} {start : Pos}
    {V : List Pos} (hstart : start ∈ V)
    (hclosed : ∀ b ∈ V, ∀ c, walkStep grid width height b c → c ∈ V) :
    ∀ n w c, w.length = n → isWalkTo grid width height start c w → c ∈ V := by
  intro n
  induction n with
  | zero =>
      intro w c hlen hw
      exact absurd (List.length_eq_zero.mp hlen) (walk_ne_nil hw)
  | succ k ih =>
      intro w c hlen hw
      by_cases hk : k = 0
      · rw [walk_len_one hw (by omega)]
        exact hstart
      · obtain ⟨w', b, rfl, hw', hstep⟩ := walk_concat hw (by omega)
        have hwl : w'.length = k := by
          rw [List.length_append] at hlen
          simpa using hlen
        exact hclosed b (ih w' b hwl hw') c hstep

theorem mem_allCells (height width : Nat) (p : Pos) :
    p ∈ allCells height width ↔ p.1 < height ∧ p.2 < width := by
  constructor
  · intro h
    rw [allCells, List.mem_flatMap] at h
    obtain ⟨r, hr, hp⟩ := h
    rw [List.mem_map] at hp
    obtain ⟨c, hc, hp⟩ := hp
    rw [← hp]
    exact ⟨List.mem_range.mp hr, List.mem_range.mp hc⟩
  · intro ⟨h1, h2⟩
    rw [allCells, List.mem_flatMap]
    exact ⟨p.1, List.mem_range.mpr h1,
      List.mem_map.mpr ⟨p.2, List.mem_range.mpr h2, rfl⟩⟩

theorem nodup_allCells (height width : Nat) : (allCells height width).Nodup := by
  rw [allCells, List.nodup_flatMap]
  constructor
  · intro r _
    exact (List.nodup_range width).map (fun a b h => by
      injection h with h1 h2)
  · have : (List.range height).Pairwise (· ≠ ·) :=
      (List.pairwise_lt_range height).imp Nat.ne_of_lt
    refine this.imp ?_
    intro r r' hne x hx hx'
    rw [List.mem_map] at hx hx'
    obtain ⟨c, -, hc⟩ := hx
    obtain ⟨c', -, hc'⟩ := hx'
    rw [← hc'] at hc
    injection hc with h1 h2
    exact hne h1

theorem map_const_sum (l : List Nat) (w : Nat) :
    (l.map fun _ => w).sum = l.length * w := by
  induction l with
  | nil => simp
  | cons a t ih => simp [ih, Nat.succ_mul, Nat.add_comm]

theorem length_allCells (height width : Nat) :
    (allCells height width).length = height * width := by
  rw [allCells, List.length_flatMap]
  simp only [Function.comp_def, List.length_map, List.length_range]
  rw [map_const_sum, List.length_range]

theorem countP_notmem_push (l : List Pos) (v : List Pos) (np : Pos)
    (hl : l.Nodup) (hnp : np ∈ l) (hv : np ∉ v) :
    (l.countP fun c => decide (c ∉ v ++ [np])) + 1 =
      l.countP fun c => decide (c ∉ v) := by
  induction l with
  | nil => exact absurd hnp (List.not_mem_nil np)
  | cons a t ih =>
      obtain ⟨hat, hnd⟩ := List.nodup_cons.mp hl
      rw [List.countP_cons, List.countP_cons]
      by_cases hna : np = a
      · have h1 : (decide (a ∉ v ++ [np])) = false := by
          simp [← hna]
        have h2 : (decide (a ∉ v)) = true := by
          simp [← hna, hv]
        rw [h1, h2]
        have ht : (t.countP fun c => decide (c ∉ v ++ [np])) =
            t.countP fun c => decide (c ∉ v) := by
          apply List.countP_congr
          intro x hx
          have hxnp : x ≠ np := by
            intro h
            rw [h, hna] at hx
            exact hat hx
          simp only [decide_eq_true_eq, List.mem_append, List.mem_singleton]
          tauto
        rw [ht]
        simp
      · have hnpt : np ∈ t := by
          rcases List.mem_cons.mp hnp with h | h
          · exact absurd h hna
          · exact h
        have hhead : (decide (a ∉ v ++ [np])) = decide (a ∉ v) := by
          have hanp : a ≠ np := fun h => hna h.symm
          simp only [decide_eq_decide, List.mem_append, List.mem_singleton]
          tauto
        rw [hhead]
        have := ih hnd hnpt
        omega

theorem unvis_push (height width : Nat) (v : List Pos) (np : Pos)
    (h1 : np.1 < height) (h2 : np.2 < width) (hv : np ∉ v) :
    unvis height width (v ++ [np]) + 1 = unvis height width v := by
  rw [unvis, unvis]
  exact countP_notmem_push (allCells height width) v np
    (nodup_allCells height width)
    ((mem_allCells height width np).mpr ⟨h1, h2⟩) hv

theorem unvis_le (height width : Nat) (v : List Pos) :
    unvis height width v ≤ height * width := by
  rw [unvis, ← length_allCells height width]
  exact List.countP_le_length _

theorem bfs_expand_eq (grid : Grid) (width height : Nat) (p : Pos)
    (path : List Pos) (queue : List (Pos × List Pos)) (visited : List Pos) :
    bfs_expand grid width height p path queue visited =
      bfs_step grid width height p path
        (bfs_step grid width height p path
          (bfs_step grid width height p path
            (bfs_step grid width height p path (queue, visited) (-1, 0))
            (1, 0)) (0, -1)) (0, 1) := rfl

theorem bfs_step_cases (grid : Grid) (width height : Nat) (p : Pos)
    (path : List Pos) (qv : List (Pos × List Pos) × List Pos) (d : Int × Int) :
    (bfs_step grid width height p path qv d = qv ∧
      (¬ inDir p d height width ∨ ofDir p d ∈ qv.2 ∨
        getCell grid (ofDir p d).1 (ofDir p d).2 = WALL)) ∨
    (inDir p d height width ∧ ofDir p d ∉ qv.2 ∧
      getCell grid (ofDir p d).1 (ofDir p d).2 ≠ WALL ∧
      bfs_step grid width height p path qv d =
        (qv.1 ++ [(ofDir p d, path ++ [ofDir p d])], qv.2 ++ [ofDir p d])) := by
  simp only [bfs_step]
  by_cases hbd : 0 ≤ (p.1 : Int) + d.1 ∧ (p.1 : Int) + d.1 < (height : Int) ∧
      0 ≤ (p.2 : Int) + d.2 ∧ (p.2 : Int) + d.2 < (width : Int)
  · rw [if_pos hbd]
    by_cases hvis : ((((p.1 : Int) + d.1).toNat, ((p.2 : Int) + d.2).toNat) :
        Pos) ∈ qv.2
    · rw [if_neg (not_not.mpr hvis)]
      exact Or.inl ⟨rfl, Or.inr (Or.inl hvis)⟩
    · rw [if_pos hvis]
      by_cases hwall : getCell grid (((p.1 : Int) + d.1).toNat)
          (((p.2 : Int) + d.2).toNat) = WALL
      · rw [if_neg (not_not.mpr hwall)]
        exact Or.inl ⟨rfl, Or.inr (Or.inr hwall)⟩
      · rw [if_pos hwall]
        exact Or.inr ⟨hbd, hvis, hwall, rfl⟩
  · rw [if_neg hbd]
    exact Or.inl ⟨rfl, Or.inl hbd⟩

theorem exp_step (grid : Grid) (width height : Nat) (p : Pos)
    (path : List Pos) (rest : List (Pos × List Pos)) (V₀ : List Pos)
    (qv : List (Pos × List Pos) × List Pos) (d : Int × Int)
    (hd : d ∈ bfsDirections)
    (hE : ExpState grid width height p path rest V₀ qv) :
    ExpState grid width height p path rest V₀
      (bfs_step grid width height p path qv d) ∧
    (∀ x ∈ qv.2, x ∈ (bfs_step grid width height p path qv d).2) ∧
    (inDir p d height width →
      getCell grid (ofDir p d).1 (ofDir p d).2 ≠ WALL →
      ofDir p d ∈ (bfs_step grid width height p path qv d).2) := by
  rcases bfs_step_cases grid width height p path qv d with
    ⟨heq, hwhy⟩ | ⟨hbd, hvis, hwall, heq⟩
  · rw [heq]
    refine ⟨hE, fun x hx => hx, ?_⟩
    intro hbd hwall
    rcases hwhy with h | h | h
    · exact absurd hbd h
    · exact h
    · exact absurd h hwall
  · rw [heq]
    obtain ⟨newE, hq, hv, hnd, hnew, hmeas⟩ := hE
    have hbd' : 0 ≤ (p.1 : Int) + d.1 ∧ (p.1 : Int) + d.1 < (height : Int) ∧
        0 ≤ (p.2 : Int) + d.2 ∧ (p.2 : Int) + d.2 < (width : Int) := hbd
    have hnp1 : (ofDir p d).1 < height := by simp only [ofDir]; omega
    have hnp2 : (ofDir p d).2 < width := by simp only [ofDir]; omega
    refine ⟨?_, ?_, ?_⟩
    · refine ⟨newE ++ [(ofDir p d, path ++ [ofDir p d])], ?_, ?_, ?_, ?_, ?_⟩
      · show qv.1 ++ [(ofDir p d, path ++ [ofDir p d])] =
          rest ++ (newE ++ [(ofDir p d, path ++ [ofDir p d])])
        rw [hq, List.append_assoc]
      · show qv.2 ++ [ofDir p d] =
          V₀ ++ ((newE ++ [(ofDir p d, path ++ [ofDir p d])]).map Prod.fst)
        rw [List.map_append, hv, List.append_assoc]
        rfl
      · exact nodup_concat qv.2 (ofDir p d) hnd hvis
      · intro e he
        rcases List.mem_append.mp he with h | h
        · exact hnew e h
        · rw [List.mem_singleton.mp h]
          refine ⟨ofDir p d, rfl, ?_, hnp1, hnp2, hwall, ?_⟩
          · intro hmem
            exact hvis (by rw [hv]; exact List.mem_append.mpr (Or.inl hmem))
          · refine ⟨d, hd, ?_, ?_⟩
            · simp only [ofDir]; omega
            · simp only [ofDir]; omega
      · show (qv.1 ++ [(ofDir p d, path ++ [ofDir p d])]).length +
            unvis height width (qv.2 ++ [ofDir p d]) =
          rest.length + unvis height width V₀
        have hup := unvis_push height width qv.2 (ofDir p d) hnp1 hnp2 hvis
        rw [List.length_append]
        simp only [List.length_singleton]
        omega
    · intro x hx
      exact List.mem_append.mpr (Or.inl hx)
    · intro _ _
      exact List.mem_append.mpr (Or.inr (List.mem_singleton.mpr rfl))

theorem bfs_expand_spec (grid : Grid) (width height : Nat) (p : Pos)
    (path : List Pos) (rest : List (Pos × List Pos)) (visited : List Pos)
    (hnd : visited.Nodup) :
    ExpState grid width height p path rest visited
      (bfs_expand grid width height p path rest visited) ∧
    (∀ x ∈ visited, x ∈ (bfs_expand grid width height p path rest visited).2) ∧
    (∀ c : Pos, adjacent p c → c.1 < height → c.2 < width →
      getCell grid c.1 c.2 ≠ WALL →
      c ∈ (bfs_expand grid width height p path rest visited).2) := by
  have hE0 : ExpState grid width height p path rest visited (rest, visited) :=
    ⟨[], by simp, by simp, hnd, by simp, rfl⟩
  obtain ⟨hE1, hm1, hc1⟩ := exp_step grid width height p path rest visited
    (rest, visited) (-1, 0) (by simp [bfsDirections]) hE0
  obtain ⟨hE2, hm2, hc2⟩ := exp_step grid width height p path rest visited
    (bfs_step grid width height p path (rest, visited) (-1, 0))
    (1, 0) (by simp [bfsDirections]) hE1
  obtain ⟨hE3, hm3, hc3⟩ := exp_step grid width height p path rest visited
    (bfs_step grid width height p path
      (bfs_step grid width height p path (rest, visited) (-1, 0)) (1, 0))
    (0, -1) (by simp [bfsDirections]) hE2
  obtain ⟨hE4, hm4, hc4⟩ := exp_step grid width height p path rest visited
    (bfs_step grid width height p path
      (bfs_step grid width height p path
        (bfs_step grid width height p path (rest, visited) (-1, 0)) (1, 0))
      (0, -1))
    (0, 1) (by simp [bfsDirections]) hE3
  rw [bfs_expand_eq]
  refine ⟨hE4, ?_, ?_⟩
  · intro x hx
    exact hm4 x (hm3 x (hm2 x (hm1 x hx)))
  · intro c hadj h1 h2 hw
    unfold adjacent at hadj
    obtain ⟨d, hd, hx, hy⟩ := hadj
    have hceq : ∀ d' : Int × Int, d' = d → c = ofDir p d' := by
      intro d' hd'
      rw [Prod.ext_iff]
      subst hd'
      constructor
      · simp only [ofDir]; omega
      · simp only [ofDir]; omega
    fin_cases hd
    · have hc := hceq (-1, 0) rfl
      rw [hc] at h1 h2 hw ⊢
      refine hm4 _ (hm3 _ (hm2 _ (hc1 ?_ hw)))
      show 0 ≤ (p.1 : Int) + (-1, (0 : Int)).1 ∧ _ ∧ _ ∧ _
      simp only [ofDir] at h1 h2
      refine ⟨by omega, by omega, by omega, by omega⟩
    · have hc := hceq (1, 0) rfl
      rw [hc] at h1 h2 hw ⊢
      refine hm4 _ (hm3 _ (hc2 ?_ hw))
      show 0 ≤ (p.1 : Int) + (1, (0 : Int)).1 ∧ _ ∧ _ ∧ _
      simp only [ofDir] at h1 h2
      refine ⟨by omega, by omega, by omega, by omega⟩
    · have hc := hceq (0, -1) rfl
      rw [hc] at h1 h2 hw ⊢
      refine hm4 _ (hc3 ?_ hw)
      show 0 ≤ (p.1 : Int) + ((0 : Int), -1).1 ∧ _ ∧ _ ∧ _
      simp only [ofDir] at h1 h2
      refine ⟨by omega, by omega, by omega, by omega⟩
    · have hc := hceq (0, 1) rfl
      rw [hc] at h1 h2 hw ⊢
      refine hc4 ?_ hw
      show 0 ≤ (p.1 : Int) + ((0 : Int), 1).1 ∧ _ ∧ _ ∧ _
      simp only [ofDir] at h1 h2
      refine ⟨by omega, by omega, by omega, by omega⟩

theorem mem_of_head_eq {α : Type} {l : List α} {a : α}
    (h : l.head? = some a) : a ∈ l := by
  cases l with
  | nil => exact Option.noConfusion h
  | cons b t =>
      have hba : b = a := by injection h
      rw [← hba]
      exact List.mem_cons_self b t

theorem bfs_loop_spec (grid : Grid) (width height : Nat) (start target : Pos)
    (fuel : Nat) :
    ∀ (queue : List (Pos × List Pos)) (visited : List Pos),
      (∀ e ∈ queue, isWalkTo grid width height start e.1 e.2) →
      (∀ e ∈ queue, ∀ w, isWalkTo grid width height start e.1 w →
        e.2.length ≤ w.length) →
      (∃ m qa qb, queue = qa ++ qb ∧ (∀ e ∈ qa, e.2.length = m) ∧
        (∀ e ∈ qb, e.2.length = m + 1)) →
      (∀ e, queue.head? = some e → ∀ c w,
        isWalkTo grid width height start c w → c ∉ visited →
        e.2.length + 1 ≤ w.length) →
      (∀ b ∈ visited, b ∉ queue.map Prod.fst →
        ∀ c, walkStep grid width height b c → c ∈ visited) →
      (target ∈ visited → target ∈ queue.map Prod.fst) →
      start ∈ visited →
      visited.Nodup →
      queue.length + unvis height width visited ≤ fuel →
      (bfs_solve_loop grid width height target fuel queue visited ≠ [] →
        isWalkTo grid width height start target
          (bfs_solve_loop grid width height target fuel queue visited) ∧
        ∀ w, isWalkTo grid width height start target w →
          (bfs_solve_loop grid width height target fuel queue
            visited).length ≤ w.length) ∧
      (bfs_solve_loop grid width height target fuel queue visited = [] →
        ∀ w, ¬ isWalkTo grid width height start target w) := by
  induction fuel with
  | zero =>
      intro queue visited h1 h2 h3 h4 h5 h6 h7 h9 h10
      refine ⟨fun hne => absurd rfl hne, ?_⟩
      intro _ w hw
      have hq : queue = [] := by
        have hlen : queue.length = 0 := by omega
        exact List.length_eq_zero.mp hlen
      subst hq
      have hclosed : ∀ b ∈ visited, ∀ c, walkStep grid width height b c →
          c ∈ visited := by
        intro b hb c hc
        exact h5 b hb (by simp) c hc
      have htv : target ∈ visited :=
        walk_all_visited h7 hclosed w.length w target rfl hw
      have := h6 htv
      simp at this
  | succ n ih =>
      intro queue visited h1 h2 h3 h4 h5 h6 h7 h9 h10
      cases queue with
      | nil =>
          refine ⟨fun hne => absurd rfl hne, ?_⟩
          intro _ w hw
          have hclosed : ∀ b ∈ visited, ∀ c, walkStep grid width height b c →
              c ∈ visited := by
            intro b hb c hc
            exact h5 b hb (by simp) c hc
          have htv : target ∈ visited :=
            walk_all_visited h7 hclosed w.length w target rfl hw
          have := h6 htv
          simp at this
      | cons e₀ rest =>
          obtain ⟨p, path⟩ := e₀
          have hwp : isWalkTo grid width height start p path :=
            h1 (p, path) (List.mem_cons_self _ _)
          by_cases hpt : p = target
          · have hred : bfs_solve_loop grid width height target (n + 1)
                ((p, path) :: rest) visited = path := by
              simp only [bfs_solve_loop]
              rw [if_pos hpt]
            rw [hred]
            constructor
            · intro _
              refine ⟨hpt ▸ hwp, ?_⟩
              intro w hw
              refine h2 (p, path) (List.mem_cons_self _ _) w ?_
              rw [hpt]
              exact hw
            · intro h0
              exact absurd h0 (walk_ne_nil hwp)
          · have hred : bfs_solve_loop grid width height target (n + 1)
                ((p, path) :: rest) visited =
                bfs_solve_loop grid width height target n
                  (bfs_expand grid width height p path rest visited).1
                  (bfs_expand grid width height p path rest visited).2 := by
              simp only [bfs_solve_loop]
              rw [if_neg hpt]
            rw [hred]
            obtain ⟨hES, hmono, hcov⟩ :=
              bfs_expand_spec grid width height p path rest visited h9
            obtain ⟨newE, hq', hv', hnd', hnewE, hmeas⟩ := hES
            have hM1 : 1 ≤ path.length := walk_length_pos hwp
            have hnewlen : ∀ e ∈ newE, e.2.length = path.length + 1 := by
              intro e he
              obtain ⟨np, heq, -⟩ := hnewE e he
              rw [heq]
              simp
            obtain ⟨m₀, qa, qb, hqd, hqa, hqb⟩ := h3
            have hfacts :
                (∀ e ∈ rest, e.2.length = path.length ∨
                  e.2.length = path.length + 1) ∧
                (∀ e₀', rest.head? = some e₀' →
                  e₀'.2.length = path.length + 1 →
                  ∀ e ∈ rest, e.2.length = path.length + 1) ∧
                (∃ m qa' qb', rest ++ newE = qa' ++ qb' ∧
                  (∀ e ∈ qa', e.2.length = m) ∧
                  (∀ e ∈ qb', e.2.length = m + 1)) := by
              cases qa with
              | nil =>
                  rw [List.nil_append] at hqd
                  have hplen : path.length = m₀ + 1 := by
                    have hmem : ((p, path) : Pos × List Pos) ∈ qb := by
                      rw [← hqd]
                      exact List.mem_cons_self _ _
                    exact hqb (p, path) hmem
                  have hrall : ∀ e ∈ rest, e.2.length = path.length := by
                    intro e he
                    have hmem : e ∈ qb := by
                      rw [← hqd]
                      exact List.mem_cons_of_mem _ he
                    have := hqb e hmem
                    omega
                  refine ⟨fun e he => Or.inl (hrall e he), ?_, ?_⟩
                  · intro e₀' he₀' hlen' e he
                    have h1' := hrall e₀' (mem_of_head_eq he₀')
                    omega
                  · exact ⟨path.length, rest, newE, rfl, hrall, hnewlen⟩
              | cons a qa' =>
                  rw [List.cons_append] at hqd
                  injection hqd with hpa hrest
                  have hplen : path.length = m₀ := by
                    have := hqa a (List.mem_cons_self _ _)
                    rw [← hpa] at this
                    exact this
                  refine ⟨?_, ?_, ?_⟩
                  · intro e he
                    rw [hrest] at he
                    rcases List.mem_append.mp he with h | h
                    · refine Or.inl ?_
                      rw [hplen]
                      exact hqa e (List.mem_cons_of_mem _ h)
                    · refine Or.inr ?_
                      rw [hplen]
                      exact hqb e h
                  · intro e₀' he₀' hlen' e he
                    cases hqa'' : qa' with
                    | nil =>
                        rw [hqa'', List.nil_append] at hrest
                        rw [hrest] at he
                        rw [hplen]
                        exact hqb e he
                    | cons b qt =>
                        rw [hqa'', List.cons_append] at hrest
                        rw [hrest] at he₀'
                        rw [List.head?_cons] at he₀'
                        injection he₀' with hbe
                        have hmem : b ∈ a :: qa' := by
                          rw [hqa'']
                          exact List.mem_cons_of_mem _ (List.mem_cons_self _ _)
                        have hbl := hqa b hmem
                        rw [hbe] at hbl
                        omega
                  · refine ⟨m₀, qa', qb ++ newE, ?_, ?_, ?_⟩
                    · rw [hrest, List.append_assoc]
                    · intro e he
                      exact hqa e (List.mem_cons_of_mem _ he)
                    · intro e he
                      rcases List.mem_append.mp he with h | h
                      · exact hqb e h
                      · rw [hnewlen e h, hplen]
            obtain ⟨fact1, fact2, hlayers⟩ := hfacts
            refine ih (bfs_expand grid width height p path rest visited).1
              (bfs_expand grid width height p path rest visited).2
              ?_ ?_ ?_ ?_ ?_ ?_ ?_ ?_ ?_
            · intro e he
              rw [hq'] at he
              rcases List.mem_append.mp he with h | h
              · exact h1 e (List.mem_cons_of_mem _ h)
              · obtain ⟨np, heq, hnpV, hb1, hb2, hwall, hadj⟩ := hnewE e h
                rw [heq]
                exact walk_snoc hwp ⟨hadj, hb1, hb2, hwall⟩
            · intro e he w hw
              rw [hq'] at he
              rcases List.mem_append.mp he with h | h
              · exact h2 e (List.mem_cons_of_mem _ h) w hw
              · obtain ⟨np, heq, hnpV, hb1, hb2, hwall, hadj⟩ := hnewE e h
                rw [heq] at hw ⊢
                have hlow : path.length + 1 ≤ w.length :=
                  h4 (p, path) rfl np w hw hnpV
                simp only [List.length_append, List.length_singleton]
                omega
            · obtain ⟨m, qa', qb', hd', hqa', hqb'⟩ := hlayers
              exact ⟨m, qa', qb', by rw [hq', hd'], hqa', hqb'⟩
            · intro e he c w hw hc
              have heE : e ∈ rest ++ newE := by
                rw [← hq']
                exact mem_of_head_eq he
              have hcV : c ∉ visited := fun h => hc (hmono c h)
              have hlow : path.length + 1 ≤ w.length :=
                h4 (p, path) rfl c w hw hcV
              have helen : e.2.length = path.length ∨
                  e.2.length = path.length + 1 := by
                rcases List.mem_append.mp heE with h | h
                · exact fact1 e h
                · exact Or.inr (hnewlen e h)
              rcases helen with hel | hel
              · rw [hel]
                exact hlow
              · rw [hel]
                by_contra hcon
                push_neg at hcon
                have hwlen : w.length = path.length + 1 := by omega
                obtain ⟨w', b, hwdec, hw', hstep⟩ :=
                  walk_concat hw (by omega)
                have hw'len : w'.length = path.length := by
                  rw [hwdec, List.length_append] at hwlen
                  simp only [List.length_singleton] at hwlen
                  omega
                have hbV : b ∈ visited := by
                  by_contra hbnV
                  have hlb : path.length + 1 ≤ w'.length :=
                    h4 (p, path) rfl b w' hw' hbnV
                  omega
                by_cases hbp : b = p
                · rw [hbp] at hstep
                  obtain ⟨hadj, hcb1, hcb2, hcw⟩ := hstep
                  exact hc (hcov c hadj hcb1 hcb2 hcw)
                · by_cases hbrest : b ∈ rest.map Prod.fst
                  · obtain ⟨e', he', hbe⟩ := List.mem_map.mp hbrest
                    have hrestne : rest ≠ [] := by
                      intro hnil
                      rw [hnil] at he'
                      exact (List.not_mem_nil e') he'
                    have hehead : rest.head? = some e := by
                      rw [hq', head_append_left rest newE hrestne] at he
                      exact he
                    have he'len : e'.2.length = path.length + 1 :=
                      fact2 e hehead hel e' he'
                    have := h2 e' (List.mem_cons_of_mem _ he') w'
                      (by rw [hbe]; exact hw')
                    omega
                  · have hbq : b ∉ ((p, path) :: rest).map Prod.fst := by
                      simp only [List.map_cons]
                      intro hmem
                      rcases List.mem_cons.mp hmem with h | h
                      · exact hbp h
                      · exact hbrest h
                    exact hc (hmono c (h5 b hbV hbq c hstep))
            · intro b hb hbq c hstep
              rw [hv'] at hb
              have hbq' : b ∉ (rest.map Prod.fst ++ newE.map Prod.fst) := by
                rw [← List.map_append, ← hq']
                exact hbq
              rcases List.mem_append.mp hb with hbV | hbNew
              · by_cases hbp : b = p
                · rw [hbp] at hstep
                  obtain ⟨hadj, hcb1, hcb2, hcw⟩ := hstep
                  exact hcov c hadj hcb1 hcb2 hcw
                · have hbq'' : b ∉ ((p, path) :: rest).map Prod.fst := by
                    simp only [List.map_cons]
                    intro hmem
                    rcases List.mem_cons.mp hmem with h | h
                    · exact hbp h
                    · exact hbq' (List.mem_append.mpr (Or.inl h))
                  exact hmono c (h5 b hbV hbq'' c hstep)
              · exact absurd hbNew
                  (fun h => hbq' (List.mem_append.mpr (Or.inr h)))
            · intro ht
              rw [hv'] at ht
              rw [hq', List.map_append]
              rcases List.mem_append.mp ht with h | h
              · have := h6 h
                rw [List.map_cons] at this
                rcases List.mem_cons.mp this with h' | h'
                · exact absurd h'.symm hpt
                · exact List.mem_append.mpr (Or.inl h')
              · exact List.mem_append.mpr (Or.inr h)
            · exact hmono start h7
            · exact hnd'
            · rw [List.length_cons] at h10
              omega

/-- C5. For a grid whose start and target cells are in bounds and carry the
`START` and `TARGET` tokens, `_bfs_solve` returns a non-empty cell path if
and only if a path of 4-directionally adjacent, in-bounds, non-`WALL` cells
exists from start to target; when it returns a path, that path is a walk
from start to target of minimal hop count; and the direction-check order is
the fixed up, down, left, right (the solver is a pure function of its
arguments, so it is deterministic by construction). -/
theorem C5_bfs_reference_solver (grid : Grid) (start target : Pos)
    (width height : Nat)
    (_hs : start.1 < height ∧ start.2 < width ∧
      getCell grid start.1 start.2 = START)
    (_ht : target.1 < height ∧ target.2 < width ∧
      getCell grid target.1 target.2 = TARGET) :
    (bfs_solve grid start target width height ≠ [] ↔
      ∃ ps, isWalkTo grid width height start target ps) ∧
    (bfs_solve grid start target width height ≠ [] →
      isWalkTo grid width height start target
        (bfs_solve grid start target width height) ∧
      ∀ ps, isWalkTo grid width height start target ps →
        (bfs_solve grid start target width height).length ≤ ps.length) ∧
    bfsDirections = [(-1, 0), (1, 0), (0, -1), (0, 1)] := by
  have h1₀ : ∀ e ∈ [((start : Pos), [start])],
      isWalkTo grid width height start e.1 e.2 := by
    intro e he
    rw [List.mem_singleton] at he
    rw [he]
    exact ⟨rfl, rfl, List.chain'_singleton _⟩
  have h2₀ : ∀ e ∈ [((start : Pos), [start])], ∀ w,
      isWalkTo grid width height start e.1 w → e.2.length ≤ w.length := by
    intro e he w hw
    rw [List.mem_singleton] at he
    rw [he] at hw ⊢
    exact walk_length_pos hw
  have h3₀ : ∃ m qa qb,
      [((start : Pos), [start])] = qa ++ qb ∧
      (∀ e ∈ qa, e.2.length = m) ∧ (∀ e ∈ qb, e.2.length = m + 1) := by
    refine ⟨0, [], [(start, [start])], rfl, ?_, ?_⟩
    · intro e he
      exact absurd he (List.not_mem_nil e)
    · intro e he
      rw [List.mem_singleton] at he
      rw [he]
      rfl
  have h4₀ : ∀ e, ([((start : Pos), [start])]).head? = some e →
      ∀ c w, isWalkTo grid width height start c w → c ∉ [start] →
      e.2.length + 1 ≤ w.length := by
    intro e he c w hw hc
    have he' : (start, [start]) = e := by injection he
    rw [← he']
    show [start].length + 1 ≤ w.length
    have hpos := walk_length_pos hw
    by_contra hcon
    push_neg at hcon
    simp only [List.length_singleton] at hcon
    have hlen1 : w.length = 1 := by omega
    have hcs := walk_len_one hw hlen1
    rw [hcs] at hc
    exact hc (List.mem_singleton.mpr rfl)
  have h5₀ : ∀ b ∈ ([start] : List Pos),
      b ∉ ([((start : Pos), [start])]).map Prod.fst →
      ∀ c, walkStep grid width height b c → c ∈ [start] := by
    intro b hb hbq
    simp only [List.map_cons, List.map_nil] at hbq
    exact absurd hb hbq
  have h6₀ : target ∈ ([start] : List Pos) →
      target ∈ ([((start : Pos), [start])]).map Prod.fst := by
    intro h
    simpa using h
  have h7₀ : start ∈ ([start] : List Pos) := List.mem_singleton.mpr rfl
  have h9₀ : ([start] : List Pos).Nodup := List.nodup_singleton _
  have h10₀ : ([((start : Pos), [start])]).length +
      unvis height width [start] ≤ width * height + 1 := by
    have hle := unvis_le height width [start]
    have hcomm : height * width = width * height := Nat.mul_comm _ _
    simp only [List.length_singleton]
    omega
  have hmain := bfs_loop_spec grid width height start target
    (width * height + 1) [(start, [start])] [start]
    h1₀ h2₀ h3₀ h4₀ h5₀ h6₀ h7₀ h9₀ h10₀
  have hsolve : bfs_solve grid start target width height =
      bfs_solve_loop grid width height target (width * height + 1)
        [(start, [start])] [start] := rfl
  rw [hsolve]
  refine ⟨⟨?_, ?_⟩, ?_, rfl⟩
  · intro hne
    exact ⟨_, (hmain.1 hne).1⟩
  · rintro ⟨ps, hps⟩ heq
    exact hmain.2 heq ps hps
  · intro hne
    exact hmain.1 hne

/-- C5 witness: the theorem at a concrete 3×3 grid with an interior wall;
both hypotheses are discharged by evaluation. -/
theorem C5_witness :
    (((0, 0) : Pos).1 < 3 ∧ ((0, 0) : Pos).2 < 3 ∧
      getCell c5Grid 0 0 = START) ∧
    (((2, 2) : Pos).1 < 3 ∧ ((2, 2) : Pos).2 < 3 ∧
      getCell c5Grid 2 2 = TARGET) ∧
    ((bfs_solve c5Grid (0, 0) (2, 2) 3 3 ≠ [] ↔
        ∃ ps, isWalkTo c5Grid 3 3 (0, 0) (2, 2) ps) ∧
      (bfs_solve c5Grid (0, 0) (2, 2) 3 3 ≠ [] →
        isWalkTo c5Grid 3 3 (0, 0) (2, 2)
          (bfs_solve c5Grid (0, 0) (2, 2) 3 3) ∧
        ∀ ps, isWalkTo c5Grid 3 3 (0, 0) (2, 2) ps →
          (bfs_solve c5Grid (0, 0) (2, 2) 3 3).length ≤ ps.length) ∧
      bfsDirections = [(-1, 0), (1, 0), (0, -1), (0, 1)]) :=
  ⟨⟨by decide, by decide, by decide⟩, ⟨by decide, by decide, by decide⟩,
   C5_bfs_reference_solver c5Grid (0, 0) (2, 2) 3 3
     ⟨by decide, by decide, by decide⟩ ⟨by decide, by decide, by decide⟩⟩
end IU
